import Mathlib

/-!
Verification development for the tack paper-cataloguing tool.

The Python sources are shallowly embedded: Python `str` values become
`List Char`, file-line iteration becomes `pyLines` (each line keeps its
trailing newline, as Python file iteration does), Python dicts become
association lists, exceptions become `Except`/`Option` results, and the
stateful fetch layer becomes explicit state passing.
-/

/-- Python strings are modelled as lists of characters. -/
abbrev Str := List Char

/-- Coerce a Lean string literal to the `Str` model. -/
def strL (s : String) : Str := s.data

/-- Whitespace test matching Python `str.strip()` for the ASCII range. -/
def isWs (c : Char) : Bool :=
  c = ' ' || c = '\t' || c = '\n' || c = '\r' || c = '\x0b' || c = '\x0c'

/-- Python `s.startswith(p)`: `startsWith p s` is true when `p` is an initial
segment of `s`. -/
def startsWith : Str → Str → Bool
  | [], _ => true
  | _ :: _, [] => false
  | p :: ps, c :: cs => if p = c then startsWith ps cs else false

/-- Drop a leading run of whitespace (left half of Python `str.strip()`). -/
def stripLeft (s : Str) : Str := s.dropWhile isWs

/-- Drop a trailing run of whitespace (right half of Python `str.strip()`). -/
def stripRight (s : Str) : Str := (s.reverse.dropWhile isWs).reverse

/-- Python `str.strip()` with no arguments. -/
def stripWs (s : Str) : Str := stripRight (stripLeft s)

/-- Python `s.strip("\n")`: strips newline characters from both ends. -/
def stripNl (s : Str) : Str :=
  ((s.dropWhile (· = '\n')).reverse.dropWhile (· = '\n')).reverse

/-- Python `"\n".join(parts)`. -/
def joinNl (parts : List Str) : Str := (parts.intersperse (strL "\n")).flatten

/-- Python file-line iteration: split a file's text into lines, each line
keeping its terminating newline; a final segment without a newline is kept
when nonempty. -/
def pyLines : Str → List Str
  | [] => []
  | c :: rest =>
    if c = '\n' then strL "\n" :: pyLines rest
    else
      match pyLines rest with
      | [] => [[c]]
      | l :: ls => (c :: l) :: ls

/-- Split on newline characters, dropping the separators (the shape of the
text that `yaml.safe_load` receives, line by line). -/
def splitOnNl : Str → List Str
  | [] => [[]]
  | c :: rest =>
    if c = '\n' then [] :: splitOnNl rest
    else
      match splitOnNl rest with
      | [] => [[c]]
      | l :: ls => (c :: l) :: ls

/-- Split a string at the first occurrence of character `c`: Python
`s.split(c, maxsplit=1)` when it yields two parts, `none` when `c` is absent. -/
def splitFirst (c : Char) : Str → Option (Str × Str)
  | [] => none
  | x :: xs =>
    if x = c then some ([], xs)
    else (splitFirst c xs).map (fun p => (x :: p.1, p.2))

/-- Lookup in an association-list model of a Python dict (first match). -/
def dictGet {α : Type} (d : List (Str × α)) (k : Str) : Option α :=
  match d with
  | [] => none
  | p :: rest => if p.1 = k then some p.2 else dictGet rest k

/-- Python `k in d` for the dict model. -/
def dictHas {α : Type} (d : List (Str × α)) (k : Str) : Bool :=
  (dictGet d k).isSome

/-- Python `d[k] = v`: replace the value at the first occurrence of `k`,
or append a fresh binding. -/
def dictSet {α : Type} (d : List (Str × α)) (k : Str) (v : α) : List (Str × α) :=
  match d with
  | [] => [(k, v)]
  | p :: rest => if p.1 = k then (k, v) :: rest else p :: dictSet rest k v

/-- Python `\x7b**a, **b\x7d`: keys of `a` first (values overridden by `b` on
conflict), then the keys of `b` that are not in `a`. -/
def dictUnion {α : Type} (a b : List (Str × α)) : List (Str × α) :=
  a.map (fun p => (p.1, (dictGet b p.1).getD p.2)) ++
    b.filter (fun p => !(dictHas a p.1))

/-- Re-attach the newlines that Python file-line iteration leaves on every
line but the last: `[l1, ..., ln]` becomes `[l1 ++ "\n", ..., l(n-1) ++ "\n", ln]`. -/
def attachNewlines : List Str → List Str
  | [] => []
  | [r] => [r]
  | r :: rest => (r ++ strL "\n") :: attachNewlines rest

/-!
Document model, from src/tack/docs.py.
-/

/-- The `MarkdownFile` dataclass of docs.py.  Metadata is modelled as a flat
string-to-string mapping (the plain-scalar fragment of YAML). -/
structure MarkdownFile where
  path : Str
  meta : List (Str × Str)
  title : Str
  abstract : Option Str
  notes : Option Str
  references : List Str
deriving DecidableEq, Repr

/-- Python truthiness of an optional string (`if doc.abstract:`). -/
def optTruthy : Option Str → Bool
  | none => false
  | some s => !s.isEmpty

/-- Python f-string interpolation of an optional string: `None` prints as the
four characters `None`. -/
def pyShow : Option Str → Str
  | none => strL "None"
  | some s => s

/-- Lexicographic order on strings used to model YAML's key sorting. -/
def strLe : Str → Str → Bool
  | [], _ => true
  | _ :: _, [] => false
  | a :: as, b :: bs => if a < b then true else if b < a then false else strLe as bs

/-- Insertion step of the key sort performed by `yaml.safe_dump`
(`sort_keys=True` is its default). -/
def insortPair (p : Str × Str) : List (Str × Str) → List (Str × Str)
  | [] => [p]
  | q :: rest =>
    if strLe p.1 q.1 then p :: q :: rest else q :: insortPair p rest

/-- Sort a metadata mapping by key, as `yaml.safe_dump` does. -/
def insortMeta : List (Str × Str) → List (Str × Str)
  | [] => []
  | p :: rest => insortPair p (insortMeta rest)

/-- Model of `yaml.safe_dump` restricted to flat string maps with plain
scalars: one `key: value` line per entry, keys sorted; the empty mapping dumps
as `\x7b\x7d` followed by a newline. -/
def yamlDump (m : List (Str × Str)) : Str :=
  if m.isEmpty then strL "\x7b\x7d\n"
  else ((insortMeta m).map (fun p => p.1 ++ strL ": " ++ p.2 ++ strL "\n")).flatten

/-- Parse one `key: value` line of the flat YAML fragment. -/
def parseKV (line : Str) : Option (Str × Str) :=
  match splitFirst ':' line with
  | none => none
  | some (k, rest) =>
    match rest with
    | ' ' :: v => some (k, v)
    | _ => none

/-- Model of `yaml.safe_load` on the flat fragment produced by `yamlDump`:
blank lines are ignored, `\x7b\x7d` is the empty mapping, every other line
must be a `key: value` pair. -/
def yamlLoad (s : Str) : Option (List (Str × Str)) :=
  let ls := (splitOnNl s).filter (fun l => !(stripWs l).isEmpty)
  if ls = [strL "\x7b\x7d"] then some []
  else ls.mapM parseKV

/-- The text `write_markdown` (docs.py) writes to `doc.path`.  Follows the
source line by line: front matter, title heading, optional Abstract section
(only when the abstract is truthy), Notes section (the notes value rendered
by f-string, so `None` becomes the text `None`), References section with the
reference lines joined by single newlines. -/
def write_markdown (doc : MarkdownFile) : Str :=
  strL "---\n" ++ yamlDump doc.meta ++ strL "---" ++
  strL "\n# " ++ doc.title ++
  (if optTruthy doc.abstract then strL "\n\n## Abstract:\n" ++ pyShow doc.abstract
   else []) ++
  strL "\n\n## Notes:\n" ++ pyShow doc.notes ++
  strL "\n\n## References:\n" ++ joinNl doc.references

/-- Failure modes of `MarkdownLinesParser` (docs.py): the structured
`ParseError` (a `ValueError` subclass carrying a message), and the unstructured
crashes the parser can hit when a predicate or `next` is applied after the
line iterator is exhausted (`AttributeError` on `None`, `StopIteration`). -/
inductive PErr where
  | parseError (msg : Str)
  | pyCrash
deriving DecidableEq, Repr

deriving instance DecidableEq for Except

/-- `MarkdownLinesParser._take_while` with a predicate that crashes on `None`
(every call site except `parse_references`): collect lines while the predicate
holds; if the iterator is exhausted the peeked `None` crashes the predicate. -/
def takeWhileCrash (p : Str → Bool) : List Str → Except PErr (List Str × List Str)
  | [] => .error .pyCrash
  | x :: xs =>
    if p x then
      match takeWhileCrash p xs with
      | .error e => .error e
      | .ok (a, r) => .ok (x :: a, r)
    else .ok ([], x :: xs)

/-- `MarkdownLinesParser._take_empty`: skip blank lines; crashes if the
iterator is exhausted first (its predicate calls `.strip()` on `None`). -/
def takeEmpty : List Str → Except PErr (List Str)
  | [] => .error .pyCrash
  | x :: xs => if (stripWs x).isEmpty then takeEmpty xs else .ok (x :: xs)

/-- `MarkdownLinesParser._take_while` with the `None`-safe predicate used by
`parse_references` (`x is not None and ...`): exhaustion just stops. -/
def takeWhileSafe (p : Str → Bool) : List Str → List Str × List Str
  | [] => ([], [])
  | x :: xs =>
    if p x then
      let (a, r) := takeWhileSafe p xs
      (x :: a, r)
    else ([], x :: xs)

/-- `MarkdownLinesParser.parse_meta`: a leading `---` line opens the front
matter, which is collected up to the closing `---` line and YAML-decoded; a
file not starting with `---` yields the empty mapping without error. -/
def parse_meta (lines : List Str) :
    Except PErr (List (Str × Str) × List Str) :=
  match lines with
  | [] => .error .pyCrash
  | l :: ls =>
    if startsWith (strL "---") l then
      match takeWhileCrash (fun x => !startsWith (strL "---") x) ls with
      | .error e => .error e
      | .ok (mlines, rest) =>
        match rest with
        | [] => .error .pyCrash
        | _ :: rest' =>
          match yamlLoad (joinNl mlines) with
          | some m => .ok (m, rest')
          | none => .error .pyCrash
    else .ok ([], l :: ls)

/-- `MarkdownLinesParser.parse_title`: after skipping blank lines the next
line must be a level-1 heading; otherwise a `ParseError` names the title. -/
def parse_title (lines : List Str) : Except PErr (Str × List Str) :=
  match takeEmpty lines with
  | .error e => .error e
  | .ok [] => .error .pyCrash
  | .ok (l :: ls) =>
    if startsWith (strL "# ") (stripWs l) then
      .ok (stripNl (if startsWith (strL "# ") l then l.drop 2 else l), ls)
    else .error (.parseError (strL "Expected title here, got: " ++ l))

/-- `MarkdownLinesParser.parse_abstract`: optional section; body lines run to
the next level-2 heading. -/
def parse_abstract (lines : List Str) : Except PErr (Option Str × List Str) :=
  match takeEmpty lines with
  | .error e => .error e
  | .ok [] => .error .pyCrash
  | .ok (l :: ls) =>
    if startsWith (strL "## Abstract") (stripWs l) then
      match takeWhileCrash (fun x => !startsWith (strL "## ") (stripWs x)) ls with
      | .error e => .error e
      | .ok (body, rest) => .ok (some (stripNl (joinNl body)), rest)
    else .ok (none, l :: ls)

/-- `MarkdownLinesParser.parse_notes`: the Notes heading is required; its body
runs to the next level-2 heading. -/
def parse_notes (lines : List Str) : Except PErr (Str × List Str) :=
  match takeEmpty lines with
  | .error e => .error e
  | .ok [] => .error .pyCrash
  | .ok (l :: ls) =>
    if startsWith (strL "## Notes") (stripWs l) then
      match takeWhileCrash (fun x => !startsWith (strL "## ") (stripWs x)) ls with
      | .error e => .error e
      | .ok (body, rest) => .ok (stripNl (joinNl body), rest)
    else .error (.parseError (strL "Expected notes, got " ++ l))

/-- `MarkdownLinesParser.parse_references`: the References heading is
required; bullet lines are collected verbatim with the `None`-safe predicate. -/
def parse_references (lines : List Str) : Except PErr (List Str × List Str) :=
  match takeEmpty lines with
  | .error e => .error e
  | .ok [] => .error .pyCrash
  | .ok (l :: ls) =>
    if startsWith (strL "## References") (stripWs l) then
      .ok (takeWhileSafe (fun x => startsWith (strL "- ") (stripWs x)) ls)
    else .error (.parseError (strL "Expected References, got " ++ l))

/-- `MarkdownLinesParser.parse` applied to the line iteration of a file's
text, as `read_markdown` does for an existing file. -/
def parseMarkdown (fname : Str) (text : Str) : Except PErr MarkdownFile :=
  match parse_meta (pyLines text) with
  | .error e => .error e
  | .ok (meta, r1) =>
    match parse_title r1 with
    | .error e => .error e
    | .ok (title, r2) =>
      match parse_abstract r2 with
      | .error e => .error e
      | .ok (abstract, r3) =>
        match parse_notes r3 with
        | .error e => .error e
        | .ok (notes, r4) =>
          match parse_references r4 with
          | .error e => .error e
          | .ok (refs, _) =>
            .ok ⟨fname, meta, title, abstract, some notes, refs⟩

/-- The merge step of `CLI.create_note` (cli.py lines 121 to 127): when a
document already exists at the target path, the freshly generated document
keeps everything except that its notes are replaced by the existing notes and
its metadata becomes `\x7b**existing.meta, **fresh.meta\x7d`. -/
def create_note_merge (fresh existing : MarkdownFile) : MarkdownFile :=
  { fresh with
    notes := existing.notes
    meta := dictUnion existing.meta fresh.meta }

/-!
Fetch layer and citation enrichment, from src/tack/api.py.
-/

/-- JSON-like values stored in a crossref reference entry dict. -/
inductive JVal where
  | s (v : Str)
  | n (v : Int)
  | null
deriving DecidableEq, Repr

/-- A crossref reference entry (`elm` in `citations_by_doi`): a Python dict,
where key presence matters (a key can be present with value `null`). -/
abbrev RDict := List (Str × JVal)

/-- Python `d.get(k)` as seen by the `Citation` constructor: a missing key and
a key holding `null` both come back as `None`. -/
def pyGet (d : RDict) (k : Str) : Option JVal :=
  match dictGet d k with
  | some .null => none
  | some v => some v
  | none => none

/-- The fields of a fetched crossref work record that the enrichment tasklet
reads.  The nested JSON accesses of the source are absorbed into this record:
`year` stands for `data["published-print"]["date-parts"][0][0]` when the
`published-print` key is present, `authors` for the `given`/`family` pairs of
`data["author"]`, and `eventShort` for the result of `get_event_title_short`
(whose regex-based conference-name shortening is not re-modelled). -/
structure PaperData where
  year : Option Int
  title : List Str
  subtitle : List Str
  authors : List (Str × Str)
  eventShort : Option Str
deriving DecidableEq, Repr

/-- `get_paper_title` (api.py): without a subtitle the first title entry (or
`None` when the title list is empty); with a subtitle, `title[0]: subtitle[0]`,
which raises `IndexError` when the title list is empty. -/
def get_paper_title (d : PaperData) : Except Unit (Option Str) :=
  match d.subtitle with
  | [] =>
    match d.title with
    | [] => .ok none
    | t :: _ => .ok (some t)
  | sub :: _ =>
    match d.title with
    | [] => .error ()
    | t :: _ => .ok (some (t ++ strL ": " ++ sub))

/-- Outcome of `self._fetch_paper(doi)` as observed by an enrichment tasklet:
a record, `None`, or a raised exception. -/
inductive FetchOutcome where
  | ok (d : Option PaperData)
  | raise
deriving DecidableEq, Repr

/-- Option value to dict value: Python `None` stored in a dict is `null`. -/
def optJ : Option Str → JVal
  | none => .null
  | some s => .s s

/-- Body of the `tasklet` inner function of `citations_by_doi`: enrich one
reference entry in place from the fetched record of its DOI; any raised error
is caught and leaves the entry as far as it got (a fetch error leaves it
untouched). -/
def tasklet (fetchPaper : Str → FetchOutcome) (elm : RDict) : RDict :=
  match dictGet elm (strL "DOI") with
  | some (.s doi) =>
    match fetchPaper doi with
    | .raise => elm
    | .ok none => elm
    | .ok (some d) =>
      let e1 := dictSet elm (strL "year")
        (match d.year with | some y => .n y | none => .null)
      match get_paper_title d with
      | .error _ => e1
      | .ok t =>
        let e2 := dictSet e1 (strL "article-title") (optJ t)
        let e3 :=
          match d.authors with
          | [] => e2
          | (given, family) :: _ =>
            dictSet e2 (strL "author") (.s (given ++ strL " " ++ family))
        dictSet e3 (strL "journal-title") (optJ d.eventShort)
  | _ => elm

/-- One reference entry after the task fan-out of `citations_by_doi`: a task
is dispatched only for entries that carry a `DOI` key and no `article-title`
key; every other entry is untouched. -/
def enrichEntry (fetchPaper : Str → FetchOutcome) (elm : RDict) : RDict :=
  if dictHas elm (strL "DOI") && !dictHas elm (strL "article-title") then
    tasklet fetchPaper elm
  else elm

/-- The `Citation` dataclass (models.py) as built by `citations_by_doi`. -/
structure Citation where
  title : Option JVal
  journal : Option JVal
  doi : Option JVal
  year : Option JVal
  author : Option JVal
deriving DecidableEq, Repr

/-- The `Citation` built from one post-enrichment reference entry. -/
def toCitation (cite : RDict) : Citation :=
  ⟨pyGet cite (strL "article-title"), pyGet cite (strL "journal-title"),
    pyGet cite (strL "DOI"), pyGet cite (strL "year"), pyGet cite (strL "author")⟩

/-- `citations_by_doi` (api.py) after the primary record is in hand: enrich
the raw reference list entry by entry (each task touches only its own entry,
so the concurrent fan-out followed by join-all is modelled by a map), then
keep exactly the entries that carry an `article-title` or a `DOI` key, in
list order. -/
def citations_by_doi (fetchPaper : Str → FetchOutcome) (references : List RDict) :
    List Citation :=
  ((references.map (enrichEntry fetchPaper)).filter
    (fun cite => dictHas cite (strL "article-title") || dictHas cite (strL "DOI"))).map
    toCitation

/-!
Cached, memoized fetch (`CrossRefApi._fetch_paper`, api.py) as a state
machine.  The `lru_cache` memo and the sqlite response cache are association
lists; `json.dumps`/`json.loads` round-trip a payload, so a cached response is
modelled as the payload itself, with `none` standing for the cached text
`null`.  The counters record how many network lookups and rate-limiter
sessions have been taken.
-/

/-- Outcome of the network lookup `self.api.doi(doi)`: a record, `None` (work
not found), or a `requests.JSONDecodeError`. -/
inductive NetOutcome (α : Type) where
  | ok (d : Option α)
  | decodeError
deriving DecidableEq, Repr

/-- Mutable state threaded through `_fetch_paper`. -/
structure FetchState (α : Type) where
  memo : List (Str × Option α)
  cache : List (Str × Option α)
  netCalls : Nat
  limiterSessions : Nat
deriving DecidableEq, Repr

/-- `CrossRefApi._fetch_paper`: the `lru_cache` memo is consulted first; then
the response cache under the namespaced key `crossref+<doi>` (a hit returns
the decoded payload and never touches the rate limiter); on a miss the rate
limiter session wraps the network call, a decode error is converted to `None`,
and the result (even `None`) is written to the cache.  Every non-memoized call
stores its result in the memo. -/
def fetch_paper {α : Type} (net : Str → NetOutcome α) (st : FetchState α)
    (doi : Str) : Option α × FetchState α :=
  match dictGet st.memo doi with
  | some r => (r, st)
  | none =>
    match dictGet st.cache (strL "crossref+" ++ doi) with
    | some payload => (payload, { st with memo := dictSet st.memo doi payload })
    | none =>
      let data : Option α :=
        match net doi with
        | .ok d => d
        | .decodeError => none
      (data,
        { st with
          memo := dictSet st.memo doi data
          cache := dictSet st.cache (strL "crossref+" ++ doi) data
          netCalls := st.netCalls + 1
          limiterSessions := st.limiterSessions + 1 })

/-!
Rate limiter, from src/tack/helpers.py, with time made explicit.
-/

/-- The mutable fields of `RateLimiter`. -/
structure RLState where
  bucket_start : ℚ
  bucket_count : Nat
deriving DecidableEq, Repr

/-- `RateLimiter.session` entered at time `t` (the optional random stagger is
a pure pre-delay and is not part of the bucket logic): below the bucket limit
the session is admitted at once; at the limit it is admitted only when the
window boundary `bucket_start + interval` has already passed, which resets the
bucket wholesale (`bucket_count = 0`, `bucket_start = now`) before counting
this session; otherwise the caller spin-waits, modelled as `none` (blocked at
time `t`). -/
def rlSession (num_requests : Nat) (interval : ℚ) (st : RLState) (t : ℚ) :
    Option RLState :=
  if st.bucket_count < num_requests then
    some { st with bucket_count := st.bucket_count + 1 }
  else if 0 < num_requests ∧ st.bucket_start + interval < t then
    some ⟨t, 1⟩
  else none

/-- A sequence of sessions at given start times, each required to be admitted
without blocking. -/
def rlRun (num_requests : Nat) (interval : ℚ) (st : RLState) :
    List ℚ → Option RLState
  | [] => some st
  | t :: ts =>
    match rlSession num_requests interval st t with
    | none => none
    | some st2 => rlRun num_requests interval st2 ts

/-- `path_safe_doi` (helpers.py): split the DOI into agency and number at the
first `/` (no `/` at all makes the tuple unpacking raise `ValueError`,
modelled as `none`), and replace every `:` and `/` in the number with `_`. -/
def path_safe_doi (doi : Str) : Option (Str × Str) :=
  match splitFirst '/' doi with
  | none => none
  | some (agency, number) =>
    some (agency, number.map (fun c => if c = ':' || c = '/' then '_' else c))

/-!
Well-formedness predicates used to delimit the fragment of documents on which
the parser/writer pair is analysed, plus concrete counterexample inputs.
-/

/-- Character membership in a string. -/
def hasChar (c : Char) : Str → Bool
  | [] => false
  | x :: xs => x = c || hasChar c xs

/-- First character, with a whitespace default for the empty string. -/
def headCh : Str → Char
  | [] => ' '
  | c :: _ => c

/-- Last character, with a whitespace default for the empty string. -/
def lastCh : Str → Char
  | [] => ' '
  | [c] => c
  | _ :: c :: rest => lastCh (c :: rest)

/-- A flat token: nonempty, free of newlines, not starting or ending in
whitespace.  Such a string occupies exactly one line and is untouched by
`stripWs`. -/
def flatTok (t : Str) : Bool :=
  !t.isEmpty && !hasChar '\n' t && !isWs (headCh t) && !isWs (lastCh t)

/-- A metadata key in the plain-scalar YAML fragment: flat, colon-free, not
starting with a dash (so the line cannot be mistaken for the closing `---`),
hash-free. -/
def metaKeyOk (k : Str) : Bool :=
  flatTok k && !hasChar ':' k && !(headCh k = '-') && !hasChar '#' k

/-- A metadata value in the plain-scalar YAML fragment. -/
def metaValOk (v : Str) : Bool := flatTok v && !hasChar '#' v

/-- One metadata entry of the plain fragment. -/
def metaPairOk (p : Str × Str) : Bool := metaKeyOk p.1 && metaValOk p.2

/-- Keys already in the order `yaml.safe_dump` would sort them into. -/
def keysSortedB : List (Str × Str) → Bool
  | [] => true
  | [_] => true
  | p :: q :: rest => strLe p.1 q.1 && keysSortedB (q :: rest)

/-- A section body (notes or abstract): empty, or a flat token that cannot be
mistaken for a level-2 heading. -/
def bodyTok (s : Str) : Bool :=
  s.isEmpty || (flatTok s && !startsWith (strL "## ") s)

/-- A reference line: flat and bullet-prefixed, as `build_refs` produces. -/
def refTok (r : Str) : Bool := flatTok r && startsWith (strL "- ") r

/-- Well-formed document: metadata in the sorted plain-scalar fragment, flat
title, bodies and references one line each. -/
def wfDoc (doc : MarkdownFile) : Bool :=
  doc.meta.all metaPairOk && keysSortedB doc.meta && flatTok doc.title &&
  (match doc.abstract with | none => true | some a => bodyTok a) &&
  bodyTok (pyShow doc.notes) && doc.references.all refTok

/-- A string with every whitespace character removed (used to exhibit that
two outputs differ only in whitespace). -/
def noWs (s : Str) : Str := s.filter (fun c => !isWs c)

/-- Concrete well-formed document with two references, used to refute the
write/parse/write round-trip claim. -/
def cexDoc : MarkdownFile :=
  ⟨strL "p", [], strL "T", none, some [], [strL "- a", strL "- b"]⟩

/-- Concrete note file text that simply ends after the Notes body, with no
References heading and no further level-2 heading. -/
def cexNoRefsEof : Str := strL "# T\n\n## Notes:\nhello"

/-!
Helper lemmas on the string and dict models.
-/

theorem hasChar_append (c : Char) (a b : Str) :
    hasChar c (a ++ b) = (hasChar c a || hasChar c b) := by
  induction a with
  | nil => simp [hasChar]
  | cons x xs ih => simp [hasChar, ih, Bool.or_assoc]

theorem splitFirst_not_mem (c : Char) (s : Str) (h : hasChar c s = false) :
    splitFirst c s = none := by
  induction s with
  | nil => rfl
  | cons x xs ih =>
    simp [hasChar, Bool.or_eq_false_iff] at h
    simp [splitFirst, h.1, ih h.2]

theorem splitFirst_first (c : Char) (a b : Str) (h : hasChar c a = false) :
    splitFirst c (a ++ c :: b) = some (a, b) := by
  induction a with
  | nil => simp [splitFirst]
  | cons x xs ih =>
    simp [hasChar, Bool.or_eq_false_iff] at h
    simp [splitFirst, h.1, ih h.2]

theorem dictGet_append {α : Type} (a b : List (Str × α)) (k : Str) :
    dictGet (a ++ b) k =
      (match dictGet a k with | some v => some v | none => dictGet b k) := by
  induction a with
  | nil => simp [dictGet]
  | cons p rest ih =>
    by_cases h : p.1 = k
    · simp [dictGet, h]
    · simp [dictGet, h, ih]

theorem dictGet_mapVal {α : Type} (F : Str → α → α) (a : List (Str × α)) (k : Str) :
    dictGet (a.map (fun p => (p.1, F p.1 p.2))) k = (dictGet a k).map (F k) := by
  induction a with
  | nil => simp [dictGet]
  | cons p rest ih =>
    by_cases h : p.1 = k
    · simp [dictGet, h]
    · simp [dictGet, h, ih]

theorem dictGet_filterKey {α : Type} (q : Str → Bool) (b : List (Str × α)) (k : Str) :
    dictGet (b.filter (fun p => q p.1)) k = if q k then dictGet b k else none := by
  induction b with
  | nil => simp [dictGet]
  | cons p rest ih =>
    by_cases hq : q p.1
    · by_cases h : p.1 = k
      · subst h
        simp [dictGet, hq]
      · simp [dictGet, hq, h, ih]
    · by_cases h : p.1 = k
      · subst h
        simp [dictGet, hq, ih]
      · simp [dictGet, hq, h, ih]

theorem dictGet_dictUnion {α : Type} (a b : List (Str × α)) (k : Str) :
    dictGet (dictUnion a b) k =
      (match dictGet b k with | some v => some v | none => dictGet a k) := by
  unfold dictUnion
  rw [dictGet_append, dictGet_mapVal (fun key v => (dictGet b key).getD v),
    dictGet_filterKey (fun key => !dictHas a key)]
  unfold dictHas
  cases ha : dictGet a k with
  | some v => cases hb : dictGet b k <;> simp [ha, hb]
  | none => cases hb : dictGet b k <;> simp [ha, hb]

theorem dictGet_dictSet_eq {α : Type} (d : List (Str × α)) (k : Str) (v : α) (k2 : Str) :
    dictGet (dictSet d k v) k2 = if k = k2 then some v else dictGet d k2 := by
  induction d with
  | nil => simp [dictSet, dictGet]
  | cons p rest ih =>
    by_cases h : p.1 = k
    · by_cases h2 : k = k2
      · simp [dictSet, dictGet, h, h2]
      · subst h
        simp [dictSet, dictGet, h2]
    · by_cases h2 : p.1 = k2
      · subst h2
        have : ¬ k = p.1 := fun hh => h hh.symm
        simp [dictSet, dictGet, h, this]
      · simp [dictSet, dictGet, h, h2, ih]

theorem map_doiSub_no_colon (b : Str) :
    hasChar ':' (b.map (fun c => if c = ':' || c = '/' then '_' else c)) = false := by
  induction b with
  | nil => rfl
  | cons c rest ih =>
    have hf : ¬ ((if c = ':' || c = '/' then '_' else c) = ':') := by
      by_cases h1 : c = ':'
      · subst h1
        decide
      · by_cases h2 : c = '/'
        · subst h2
          decide
        · simp [h1, h2]
    show (decide ((if c = ':' || c = '/' then '_' else c) = ':') ||
      hasChar ':' (rest.map (fun c => if c = ':' || c = '/' then '_' else c))) = false
    rw [ih, Bool.or_false, decide_eq_false hf]

theorem map_doiSub_no_slash (b : Str) :
    hasChar '/' (b.map (fun c => if c = ':' || c = '/' then '_' else c)) = false := by
  induction b with
  | nil => rfl
  | cons c rest ih =>
    have hf : ¬ ((if c = ':' || c = '/' then '_' else c) = '/') := by
      by_cases h1 : c = ':'
      · subst h1
        decide
      · by_cases h2 : c = '/'
        · subst h2
          decide
        · simp [h1, h2]
    show (decide ((if c = ':' || c = '/' then '_' else c) = '/') ||
      hasChar '/' (rest.map (fun c => if c = ':' || c = '/' then '_' else c))) = false
    rw [ih, Bool.or_false, decide_eq_false hf]

/-- Claim C10: `path_safe_doi` raises an unhandled `ValueError` (modelled as
`none`) on every identifier without a `/`; on an identifier of the form
`a ++ "/" ++ b` whose part `a` is slash-free (so `a` is the prefix before the
first slash), it returns `a` unchanged as the namespace together with `b` with
every `:` and `/` replaced by `_`, a remainder free of both path-unsafe
characters. -/
theorem path_safe_doi_spec (doi a b : Str) :
    (hasChar '/' doi = false → path_safe_doi doi = none) ∧
    (doi = a ++ '/' :: b → hasChar '/' a = false →
      path_safe_doi doi =
        some (a, b.map (fun c => if c = ':' || c = '/' then '_' else c)) ∧
      hasChar ':' (b.map (fun c => if c = ':' || c = '/' then '_' else c)) = false ∧
      hasChar '/' (b.map (fun c => if c = ':' || c = '/' then '_' else c)) = false) := by
  constructor
  · intro h
    simp [path_safe_doi, splitFirst_not_mem '/' doi h]
  · intro hd ha
    subst hd
    refine ⟨?_, map_doiSub_no_colon b, map_doiSub_no_slash b⟩
    simp [path_safe_doi, splitFirst_first '/' a b ha]

/-- Witness for C10 at the identifiers `nodoi` and `10.1145/ab:c/d`. -/
theorem path_safe_doi_spec_witness :
    path_safe_doi (strL "nodoi") = none ∧
    path_safe_doi (strL "10.1145/ab:c/d") = some (strL "10.1145", strL "ab_c_d") := by
  constructor
  · exact (path_safe_doi_spec (strL "nodoi") [] []).1 (by decide)
  · have h := (path_safe_doi_spec (strL "10.1145/ab:c/d") (strL "10.1145")
      (strL "ab:c/d")).2 (by decide) (by decide)
    exact h.1.trans (by decide)

/-- Claim C1: the merge `CLI.create_note` performs against an existing
document keeps the fresh document's path, takes the existing document's notes
verbatim, and produces a metadata mapping that contains every existing key
(bound to the freshly computed value when the fresh mapping also computes that
key, and to the existing value otherwise) and every freshly computed key
(always bound to the fresh value). -/
theorem create_note_merge_spec (fresh existing : MarkdownFile) :
    (create_note_merge fresh existing).notes = existing.notes ∧
    (create_note_merge fresh existing).path = fresh.path ∧
    (∀ k, dictHas existing.meta k = true →
      dictHas (create_note_merge fresh existing).meta k = true ∧
      dictGet (create_note_merge fresh existing).meta k =
        (if dictHas fresh.meta k then dictGet fresh.meta k
         else dictGet existing.meta k)) ∧
    (∀ k, dictHas fresh.meta k = true →
      dictHas (create_note_merge fresh existing).meta k = true ∧
      dictGet (create_note_merge fresh existing).meta k = dictGet fresh.meta k) := by
  refine ⟨rfl, rfl, ?_, ?_⟩
  · intro k hk
    unfold dictHas at hk
    cases he : dictGet existing.meta k with
    | none => simp [he] at hk
    | some v =>
      cases hf : dictGet fresh.meta k with
      | none => simp [create_note_merge, dictHas, dictGet_dictUnion, he, hf]
      | some w => simp [create_note_merge, dictHas, dictGet_dictUnion, he, hf]
  · intro k hk
    unfold dictHas at hk
    cases hf : dictGet fresh.meta k with
    | none => simp [hf] at hk
    | some w => simp [create_note_merge, dictHas, dictGet_dictUnion, hf]

/-- Witness for C1 at the example of the specification: existing notes
`my thoughts` and metadata key `priority: high` survive the merge, while the
freshly computed `year` wins. -/
theorem create_note_merge_spec_witness :
    (create_note_merge
      ⟨strL "p", [(strL "year", strL "2024")], strL "T", none, none, []⟩
      ⟨strL "p", [(strL "priority", strL "high"), (strL "year", strL "2020")],
        strL "T", none, some (strL "my thoughts"), []⟩).notes =
      some (strL "my thoughts") ∧
    dictGet (create_note_merge
      ⟨strL "p", [(strL "year", strL "2024")], strL "T", none, none, []⟩
      ⟨strL "p", [(strL "priority", strL "high"), (strL "year", strL "2020")],
        strL "T", none, some (strL "my thoughts"), []⟩).meta (strL "priority") =
      some (strL "high") ∧
    dictGet (create_note_merge
      ⟨strL "p", [(strL "year", strL "2024")], strL "T", none, none, []⟩
      ⟨strL "p", [(strL "priority", strL "high"), (strL "year", strL "2020")],
        strL "T", none, some (strL "my thoughts"), []⟩).meta (strL "year") =
      some (strL "2024") := by
  have h := create_note_merge_spec
    ⟨strL "p", [(strL "year", strL "2024")], strL "T", none, none, []⟩
    ⟨strL "p", [(strL "priority", strL "high"), (strL "year", strL "2020")],
      strL "T", none, some (strL "my thoughts"), []⟩
  refine ⟨h.1, ?_, ?_⟩
  · exact ((h.2.2.1 (strL "priority") (by decide)).2).trans (by decide)
  · exact ((h.2.2.2 (strL "year") (by decide)).2).trans (by decide)

theorem fetch_paper_memo_after {α : Type} (net : Str → NetOutcome α)
    (st : FetchState α) (doi : Str) :
    dictGet (fetch_paper net st doi).2.memo doi = some (fetch_paper net st doi).1 := by
  unfold fetch_paper
  cases hm : dictGet st.memo doi with
  | some r => simp [hm]
  | none =>
    cases hc : dictGet st.cache (strL "crossref+" ++ doi) with
    | some payload => simp [hc, dictGet_dictSet_eq]
    | none => cases net doi <;> simp [hc, dictGet_dictSet_eq]

/-- Claim C4: when both the memo and the response cache miss and the network
lookup fails with a decode error, `_fetch_paper` returns `None` to the caller
and writes the `None` result itself to the cache under `crossref+<doi>`; and
as long as that cached `None` entry is present, every fetch of the identifier
that reaches the cache returns `None` without any network call or rate-limiter
session (and a memoized `None` short-circuits even earlier), until the entry
is purged. -/
theorem fetch_decode_failure_cached {α : Type} (net : Str → NetOutcome α)
    (st : FetchState α) (doi : Str) :
    (dictGet st.memo doi = none →
      dictGet st.cache (strL "crossref+" ++ doi) = none →
      net doi = .decodeError →
      fetch_paper net st doi =
        (none,
          { st with
            memo := dictSet st.memo doi none
            cache := dictSet st.cache (strL "crossref+" ++ doi) none
            netCalls := st.netCalls + 1
            limiterSessions := st.limiterSessions + 1 }) ∧
      dictGet (fetch_paper net st doi).2.cache (strL "crossref+" ++ doi) =
        some none) ∧
    (dictGet st.memo doi = none →
      dictGet st.cache (strL "crossref+" ++ doi) = some none →
      fetch_paper net st doi =
        (none, { st with memo := dictSet st.memo doi none })) ∧
    (dictGet st.memo doi = some none → fetch_paper net st doi = (none, st)) := by
  refine ⟨?_, ?_, ?_⟩
  · intro hm hc hn
    constructor
    · simp [fetch_paper, hm, hc, hn]
    · simp [fetch_paper, hm, hc, hn, dictGet_dictSet_eq]
  · intro hm hc
    simp [fetch_paper, hm, hc]
  · intro hm
    simp [fetch_paper, hm]

/-- Witness for C4: a decode-failing network, an empty state, two successive
fetches: the first caches the `None`, the second is served without any
further network call or limiter session. -/
theorem fetch_decode_failure_cached_witness :
    (fetch_paper (fun _ => NetOutcome.decodeError (α := Nat)) ⟨[], [], 0, 0⟩
      (strL "D")).2.cache = [(strL "crossref+D", none)] ∧
    fetch_paper (fun _ => NetOutcome.decodeError (α := Nat))
      ⟨[], [(strL "crossref+D", none)], 5, 5⟩ (strL "D") =
      (none, ⟨[(strL "D", none)], [(strL "crossref+D", none)], 5, 5⟩) := by
  constructor
  · have h := ((fetch_decode_failure_cached
      (fun _ => NetOutcome.decodeError (α := Nat)) ⟨[], [], 0, 0⟩ (strL "D")).1
      (by decide) (by decide) rfl).1
    rw [h]
    decide
  · have h := (fetch_decode_failure_cached
      (fun _ => NetOutcome.decodeError (α := Nat))
      ⟨[], [(strL "crossref+D", none)], 5, 5⟩ (strL "D")).2.1
      (by decide) (by decide)
    rw [h]
    decide

/-- Claim C8: fetching the same identifier twice in one process issues at most
one network call in total: the first call stores its result in the memo, so
the second returns the same result with no state change at all; and a fetch
whose namespaced key is already in the response cache performs no network call
and never enters a rate-limiter session. -/
theorem fetch_paper_idempotent {α : Type} (net : Str → NetOutcome α)
    (st : FetchState α) (doi : Str) :
    (fetch_paper net (fetch_paper net st doi).2 doi =
      ((fetch_paper net st doi).1, (fetch_paper net st doi).2) ∧
     (fetch_paper net st doi).2.netCalls ≤ st.netCalls + 1) ∧
    (∀ payload, dictGet st.memo doi = none →
      dictGet st.cache (strL "crossref+" ++ doi) = some payload →
      fetch_paper net st doi =
        (payload, { st with memo := dictSet st.memo doi payload })) := by
  constructor
  · constructor
    · have h := fetch_paper_memo_after net st doi
      conv_lhs => rw [fetch_paper]
      rw [h]
    · unfold fetch_paper
      cases hm : dictGet st.memo doi with
      | some r => simp [hm]
      | none =>
        cases hc : dictGet st.cache (strL "crossref+" ++ doi) with
        | some payload => simp [hc]
        | none => cases net doi <;> simp [hc]
  · intro payload hm hc
    simp [fetch_paper, hm, hc]

/-- Witness for C8: with a counting network, two fetches of the same DOI from
the empty state leave exactly one network call; a cache-primed state yields
the payload with zero network calls and zero limiter sessions. -/
theorem fetch_paper_idempotent_witness :
    (fetch_paper (fun _ => NetOutcome.ok (some 3))
      (fetch_paper (fun _ => NetOutcome.ok (some 3)) (⟨[], [], 0, 0⟩ : FetchState Nat)
        (strL "X")).2 (strL "X")).2.netCalls ≤ 1 ∧
    fetch_paper (fun _ => NetOutcome.ok (some 3))
      (⟨[], [(strL "crossref+X", some 7)], 0, 0⟩ : FetchState Nat) (strL "X") =
      (some 7, ⟨[(strL "X", some 7)], [(strL "crossref+X", some 7)], 0, 0⟩) := by
  constructor
  · have h := (fetch_paper_idempotent (fun _ => NetOutcome.ok (some 3))
      (⟨[], [], 0, 0⟩ : FetchState Nat) (strL "X")).1
    rw [h.1]
    exact h.2
  · have h := (fetch_paper_idempotent (fun _ => NetOutcome.ok (some 3))
      (⟨[], [(strL "crossref+X", some 7)], 0, 0⟩ : FetchState Nat) (strL "X")).2
      (some 7) (by decide) (by decide)
    rw [h]
    decide

theorem rlRun_below_limit (N : Nat) (T : ℚ) :
    ∀ (ts : List ℚ) (st : RLState), st.bucket_count + ts.length ≤ N →
      rlRun N T st ts = some ⟨st.bucket_start, st.bucket_count + ts.length⟩ := by
  intro ts
  induction ts with
  | nil =>
    intro st _
    simp [rlRun]
  | cons t rest ih =>
    intro st hle
    simp only [List.length_cons] at hle
    have hlt : st.bucket_count < N := by omega
    have h2 := ih ⟨st.bucket_start, st.bucket_count + 1⟩ (by simp; omega)
    simp only [rlRun, rlSession, hlt, if_pos]
    rw [h2]
    simp
    omega

/-- Claim C7: from a fresh bucket, any `N` sessions are admitted with no
rate-limit wait (the blocking branch is never taken) and leave the window
start untouched; an `(N+1)`th session attempted at any time up to the window
boundary `t0 + T` is blocked; at any time strictly past the boundary it is
admitted, resetting the bucket wholesale (new window start, count 1), after
which `N - 1` further sessions (for `N` total in the new window) are admitted
and the next one within the new window is blocked again. -/
theorem rate_limiter_window (N : Nat) (T t0 : ℚ) (ts : List ℚ)
    (hN : 0 < N) (hlen : ts.length = N) :
    rlRun N T ⟨t0, 0⟩ ts = some ⟨t0, N⟩ ∧
    (∀ t, t ≤ t0 + T → rlSession N T ⟨t0, N⟩ t = none) ∧
    (∀ t2, t0 + T < t2 →
      rlSession N T ⟨t0, N⟩ t2 = some ⟨t2, 1⟩ ∧
      (∀ ts2 : List ℚ, ts2.length = N - 1 → rlRun N T ⟨t2, 1⟩ ts2 = some ⟨t2, N⟩) ∧
      (∀ t3, t3 ≤ t2 + T → rlSession N T ⟨t2, N⟩ t3 = none)) := by
  refine ⟨?_, ?_, ?_⟩
  · have h := rlRun_below_limit N T ts ⟨t0, 0⟩ (by simp [hlen])
    simpa [hlen] using h
  · intro t ht
    have : ¬ (t0 + T < t) := not_lt.mpr ht
    simp [rlSession, this]
  · intro t2 ht2
    refine ⟨by simp [rlSession, ht2, hN], ?_, ?_⟩
    · intro ts2 hlen2
      have h := rlRun_below_limit N T ts2 ⟨t2, 1⟩ (by simp [hlen2]; omega)
      have : 1 + ts2.length = N := by omega
      simpa [this] using h
    · intro t3 ht3
      have : ¬ (t2 + T < t3) := not_lt.mpr ht3
      simp [rlSession, this]

/-- Witness for C7 with `N = 2`, `T = 2`, window starting at `0`: two sessions
pass, a third at the boundary blocks, at time `3` it passes with a reset
bucket, one more passes, and the next within the new window blocks. -/
theorem rate_limiter_window_witness :
    rlRun 2 2 ⟨0, 0⟩ [0, 1] = some ⟨0, 2⟩ ∧
    rlSession 2 2 ⟨0, 2⟩ 2 = none ∧
    rlSession 2 2 ⟨0, 2⟩ 3 = some ⟨3, 1⟩ ∧
    rlRun 2 2 ⟨3, 1⟩ [3] = some ⟨3, 2⟩ ∧
    rlSession 2 2 ⟨3, 2⟩ 4 = none := by
  have h := rate_limiter_window 2 2 0 [0, 1] (by decide) (by decide)
  have h3 := h.2.2 3 (by norm_num)
  exact ⟨h.1, h.2.1 2 (by norm_num), h3.1, h3.2.1 [3] (by decide),
    h3.2.2 4 (by norm_num)⟩

theorem filter_map_comm {β γ : Type} (f : β → γ) (p : γ → Bool) (l : List β) :
    (l.map f).filter p = (l.filter (fun x => p (f x))).map f := by
  induction l with
  | nil => rfl
  | cons x xs ih =>
    by_cases h : p (f x)
    · simp [List.filter, h, ih]
    · simp [List.filter, h, ih]

theorem map_ext_mem {β γ : Type} (f g : β → γ) (l : List β)
    (h : ∀ x ∈ l, f x = g x) : l.map f = l.map g := by
  induction l with
  | nil => rfl
  | cons x xs ih =>
    simp only [List.map_cons, h x (by simp)]
    rw [ih (fun y hy => h y (by simp [hy]))]

theorem filter_ext_mem {β : Type} (p q : β → Bool) (l : List β)
    (h : ∀ x ∈ l, p x = q x) : l.filter p = l.filter q := by
  induction l with
  | nil => rfl
  | cons x xs ih =>
    have hx := h x (by simp)
    by_cases hp : p x
    · simp [List.filter, hp, hx ▸ hp, ih (fun y hy => h y (by simp [hy]))]
    · have hq : q x = false := by
        rw [← hx]
        exact Bool.not_eq_true _ |>.mp hp
      simp [List.filter, Bool.not_eq_true _ |>.mp hp, hq,
        ih (fun y hy => h y (by simp [hy]))]

theorem dictHas_dictSet (d : RDict) (k : Str) (v : JVal) (k2 : Str) :
    dictHas (dictSet d k v) k2 = (dictHas d k2 || decide (k = k2)) := by
  unfold dictHas
  rw [dictGet_dictSet_eq]
  by_cases h : k = k2
  · simp [h]
  · cases hd : dictGet d k2 <;> simp [h, hd]

theorem tasklet_keeps_keys (f : Str → FetchOutcome) (elm : RDict) (k : Str)
    (h : dictHas elm k = true) : dictHas (tasklet f elm) k = true := by
  unfold tasklet
  cases hd : dictGet elm (strL "DOI") with
  | none => simpa using h
  | some v =>
    cases v with
    | n x => simpa using h
    | null => simpa using h
    | s doi =>
      cases hf : f doi with
      | raise => simpa [hf] using h
      | ok dd =>
        cases dd with
        | none => simpa [hf] using h
        | some pd =>
          cases ht : get_paper_title pd with
          | error e => simp [hf, ht, dictHas_dictSet, h]
          | ok t =>
            cases hA : pd.authors with
            | nil => simp [hf, ht, hA, dictHas_dictSet, h]
            | cons a rest => simp [hf, ht, hA, dictHas_dictSet, h]

theorem enrichEntry_keep_pred (f : Str → FetchOutcome) (elm : RDict) :
    (dictHas (enrichEntry f elm) (strL "article-title") ||
      dictHas (enrichEntry f elm) (strL "DOI")) =
    (dictHas elm (strL "article-title") || dictHas elm (strL "DOI")) := by
  unfold enrichEntry
  by_cases hc : (dictHas elm (strL "DOI") && !dictHas elm (strL "article-title")) = true
  · simp only [hc, if_pos]
    simp only [Bool.and_eq_true, Bool.not_eq_true'] at hc
    have hk := tasklet_keeps_keys f elm (strL "DOI") hc.1
    simp [hk, hc.1]
  · simp [hc]

theorem citations_filter_raw (f : Str → FetchOutcome) (refs : List RDict) :
    citations_by_doi f refs =
      ((refs.filter
        (fun cite => dictHas cite (strL "article-title") || dictHas cite (strL "DOI"))).map
        (fun cite => toCitation (enrichEntry f cite))) := by
  unfold citations_by_doi
  rw [filter_map_comm (enrichEntry f)
    (fun cite => dictHas cite (strL "article-title") || dictHas cite (strL "DOI")) refs]
  rw [filter_ext_mem _ _ refs (fun x _ => enrichEntry_keep_pred f x)]
  rw [List.map_map]
  rfl

/-- Claim C5: the citation list `citations_by_doi` returns consists exactly of
the entries of the raw reference list that carry a DOI or an article title, in
the raw list's relative order (the per-entry enrichment, being in place, never
creates or removes entries and never reorders; dropped entries are exactly
those with neither field). -/
theorem citations_order_and_filtering (f : Str → FetchOutcome) (refs : List RDict) :
    citations_by_doi f refs =
      ((refs.filter
        (fun cite => dictHas cite (strL "article-title") || dictHas cite (strL "DOI"))).map
        (fun cite => toCitation (enrichEntry f cite))) :=
  citations_filter_raw f refs

/-- Claim C6: when the enrichment fetch for a DOI raises, every reference
entry carrying that DOI is left completely unenriched, and the batch result is
still the full filtered citation list in which every other entry is processed
normally -- the failure neither propagates nor disturbs sibling entries. -/
theorem enrichment_failure_isolated (f : Str → FetchOutcome) (refs : List RDict)
    (d : Str) (hfail : f d = .raise) :
    (∀ elm, dictGet elm (strL "DOI") = some (.s d) → enrichEntry f elm = elm) ∧
    citations_by_doi f refs =
      ((refs.filter
        (fun cite => dictHas cite (strL "article-title") || dictHas cite (strL "DOI"))).map
        (fun cite =>
          toCitation (if dictGet cite (strL "DOI") = some (.s d) then cite
            else enrichEntry f cite))) := by
  have hiso : ∀ elm, dictGet elm (strL "DOI") = some (.s d) → enrichEntry f elm = elm := by
    intro elm hd
    simp [enrichEntry, tasklet, hd, hfail]
  refine ⟨hiso, ?_⟩
  rw [citations_filter_raw f refs]
  refine map_ext_mem _ _ _ (fun cite _ => ?_)
  by_cases hd : dictGet cite (strL "DOI") = some (.s d)
  · rw [if_pos hd, hiso cite hd]
  · rw [if_neg hd]

/-- Witness for C6: with a network that raises on DOI `x` and succeeds on `z`,
the batch of the specification's shape still returns all usable entries, with
the `x` entry unenriched and the `z` entry enriched. -/
theorem enrichment_failure_isolated_witness :
    citations_by_doi
      (fun doi => if doi = strL "z"
        then .ok (some ⟨some 2001, [strL "TZ"], [], [], none⟩) else .raise)
      [[(strL "DOI", .s (strL "x"))],
       [(strL "unstructured", .s (strL "junk"))],
       [(strL "DOI", .s (strL "z"))]] =
      [⟨none, none, some (.s (strL "x")), none, none⟩,
       ⟨some (.s (strL "TZ")), none, some (.s (strL "z")), some (.n 2001), none⟩] ∧
    enrichEntry
      (fun doi => if doi = strL "z"
        then .ok (some ⟨some 2001, [strL "TZ"], [], [], none⟩) else .raise)
      [(strL "DOI", .s (strL "x"))] = [(strL "DOI", .s (strL "x"))] := by
  have h := enrichment_failure_isolated
    (fun doi => if doi = strL "z"
      then .ok (some ⟨some 2001, [strL "TZ"], [], [], none⟩) else .raise)
    [[(strL "DOI", .s (strL "x"))],
     [(strL "unstructured", .s (strL "junk"))],
     [(strL "DOI", .s (strL "z"))]]
    (strL "x") (by decide)
  constructor
  · rw [h.2]
    decide
  · exact h.1 [(strL "DOI", .s (strL "x"))] (by decide)

theorem pyLines_append (a b : Str) (h : hasChar '\n' a = false) :
    pyLines (a ++ '\n' :: b) = (a ++ strL "\n") :: pyLines b := by
  induction a with
  | nil => simp [pyLines, strL]
  | cons c cs ih =>
    simp only [hasChar, Bool.or_eq_false_iff, decide_eq_false_iff_not] at h
    simp only [List.cons_append, pyLines, if_neg h.1]
    rw [show cs.append ('\n' :: b) = cs ++ '\n' :: b from rfl, ih h.2]

theorem pyLines_flat (a : Str) (hne : a ≠ []) (h : hasChar '\n' a = false) :
    pyLines a = [a] := by
  induction a with
  | nil => exact absurd rfl hne
  | cons c cs ih =>
    simp only [hasChar, Bool.or_eq_false_iff, decide_eq_false_iff_not] at h
    by_cases hcs : cs = []
    · subst hcs
      simp [pyLines, h.1]
    · simp [pyLines, h.1, ih hcs h.2]

theorem splitOnNl_append (a b : Str) (h : hasChar '\n' a = false) :
    splitOnNl (a ++ '\n' :: b) = a :: splitOnNl b := by
  induction a with
  | nil => simp [splitOnNl]
  | cons c cs ih =>
    simp only [hasChar, Bool.or_eq_false_iff, decide_eq_false_iff_not] at h
    simp only [List.cons_append, splitOnNl, if_neg h.1]
    rw [show cs.append ('\n' :: b) = cs ++ '\n' :: b from rfl, ih h.2]

theorem splitOnNl_flat (a : Str) (h : hasChar '\n' a = false) :
    splitOnNl a = [a] := by
  induction a with
  | nil => rfl
  | cons c cs ih =>
    simp only [hasChar, Bool.or_eq_false_iff, decide_eq_false_iff_not] at h
    simp [splitOnNl, h.1, ih h.2]

theorem joinNl_nil : joinNl [] = [] := rfl

theorem joinNl_single (a : Str) : joinNl [a] = a := by
  simp [joinNl]

theorem joinNl_cons (a b : Str) (r : List Str) :
    joinNl (a :: b :: r) = a ++ '\n' :: joinNl (b :: r) := by
  simp [joinNl, List.intersperse, strL]

theorem stripLeft_cons_nonws (c : Char) (s : Str) (h : isWs c = false) :
    stripLeft (c :: s) = c :: s := by
  simp [stripLeft, List.dropWhile, h]

theorem stripRight_append_ws (a : Str) (c : Char) (h : isWs c = true) :
    stripRight (a ++ [c]) = stripRight a := by
  simp [stripRight, List.dropWhile, h]

theorem stripRight_append_nonws (a : Str) (c : Char) (h : isWs c = false) :
    stripRight (a ++ [c]) = a ++ [c] := by
  simp [stripRight, List.dropWhile, h]

theorem lastCh_append (a b : Str) (h : b ≠ []) : lastCh (a ++ b) = lastCh b := by
  induction a with
  | nil => rfl
  | cons c cs ih =>
    have hne : cs ++ b ≠ [] := by
      simp [h]
    rw [List.cons_append]
    cases hcs : cs ++ b with
    | nil => exact absurd hcs hne
    | cons d ds =>
      show lastCh (c :: d :: ds) = lastCh b
      rw [show lastCh (c :: d :: ds) = lastCh (d :: ds) from rfl, ← hcs, ih]

theorem lastCh_eq_getLast (s : Str) (hne : s ≠ []) : lastCh s = s.getLast hne := by
  induction s with
  | nil => exact absurd rfl hne
  | cons c cs ih =>
    cases cs with
    | nil => rfl
    | cons d ds =>
      rw [show lastCh (c :: d :: ds) = lastCh (d :: ds) from rfl, ih (by simp)]
      simp [List.getLast_cons]

theorem stripRight_last_nonws (s : Str) (hne : s ≠ []) (h : isWs (lastCh s) = false) :
    stripRight s = s := by
  have hd : s.dropLast ++ [s.getLast hne] = s := List.dropLast_append_getLast hne
  have hl : isWs (s.getLast hne) = false := by
    rwa [lastCh_eq_getLast s hne] at h
  calc stripRight s = stripRight (s.dropLast ++ [s.getLast hne]) := by rw [hd]
    _ = s.dropLast ++ [s.getLast hne] := stripRight_append_nonws _ _ hl
    _ = s := hd

theorem pyLines_nl_cons (b : Str) : pyLines ('\n' :: b) = strL "\n" :: pyLines b := by
  simp [pyLines]

theorem headCh_append (a b : Str) (h : a ≠ []) : headCh (a ++ b) = headCh a := by
  cases a with
  | nil => exact absurd rfl h
  | cons c cs => rfl

theorem startsWith_pre (p r : Str) : startsWith p (p ++ r) = true := by
  induction p with
  | nil => rfl
  | cons c cs ih => simp [startsWith, ih]

theorem startsWith_head_ne (c : Char) (p s : Str) (hne : s ≠ [])
    (h : ¬ headCh s = c) : startsWith (c :: p) s = false := by
  cases s with
  | nil => exact absurd rfl hne
  | cons d ds =>
    have : ¬ c = d := fun hcd => h (hcd.symm)
    simp [startsWith, headCh, this]

theorem startsWith_ne_nil (c : Char) (p s : Str) (h : startsWith (c :: p) s = true) :
    s ≠ [] := by
  intro hs
  subst hs
  simp [startsWith] at h

theorem flatTok_ne_nil (t : Str) (h : flatTok t = true) : t ≠ [] := by
  simp only [flatTok, Bool.and_eq_true, Bool.not_eq_true'] at h
  simpa using h.1.1.1

theorem flatTok_no_nl (t : Str) (h : flatTok t = true) : hasChar '\n' t = false := by
  simp only [flatTok, Bool.and_eq_true, Bool.not_eq_true'] at h
  exact h.1.1.2

theorem flatTok_head (t : Str) (h : flatTok t = true) : isWs (headCh t) = false := by
  simp only [flatTok, Bool.and_eq_true, Bool.not_eq_true'] at h
  exact h.1.2

theorem flatTok_last (t : Str) (h : flatTok t = true) : isWs (lastCh t) = false := by
  simp only [flatTok, Bool.and_eq_true, Bool.not_eq_true'] at h
  exact h.2

theorem flatTok_append (a b : Str) (ha : flatTok a = true) (hb : flatTok b = true) :
    flatTok (a ++ b) = true := by
  have hna := flatTok_ne_nil a ha
  have hnb := flatTok_ne_nil b hb
  simp only [flatTok, Bool.and_eq_true, Bool.not_eq_true']
  refine ⟨⟨⟨?_, ?_⟩, ?_⟩, ?_⟩
  · simp [hna]
  · rw [hasChar_append, flatTok_no_nl a ha, flatTok_no_nl b hb]
    rfl
  · rw [headCh_append a b hna]
    exact flatTok_head a ha
  · rw [lastCh_append a b hnb]
    exact flatTok_last b hb

theorem stripWs_flat (t : Str) (h : flatTok t = true) : stripWs t = t := by
  have hne := flatTok_ne_nil t h
  have hsl : stripLeft t = t := by
    cases t with
    | nil => exact absurd rfl hne
    | cons c cs => exact stripLeft_cons_nonws c cs (flatTok_head _ h)
  rw [stripWs, hsl, stripRight_last_nonws t hne (flatTok_last _ h)]

theorem stripWs_flat_nl (t : Str) (h : flatTok t = true) :
    stripWs (t ++ strL "\n") = t := by
  have hne := flatTok_ne_nil t h
  have hsl : stripLeft (t ++ strL "\n") = t ++ strL "\n" := by
    cases t with
    | nil => exact absurd rfl hne
    | cons c cs =>
      rw [List.cons_append]
      exact stripLeft_cons_nonws c _ (flatTok_head _ h)
  rw [stripWs, hsl, show t ++ strL "\n" = t ++ ['\n'] from rfl,
    stripRight_append_ws t '\n' (by decide),
    stripRight_last_nonws t hne (flatTok_last _ h)]

theorem stripWs_blank_nl : stripWs (strL "\n") = [] := by decide

theorem dropWhile_append_all (p : Char → Bool) (a b : Str) (h : ∀ c ∈ a, p c = true) :
    List.dropWhile p (a ++ b) = List.dropWhile p b := by
  induction a with
  | nil => rfl
  | cons c cs ih =>
    rw [List.cons_append, List.dropWhile_cons]
    simp only [h c (by simp), if_pos]
    exact ih (fun d hd => h d (by simp [hd]))

theorem dropWhile_cons_neg (p : Char → Bool) (c : Char) (s : Str) (h : p c = false) :
    List.dropWhile p (c :: s) = c :: s := by
  simp [List.dropWhile_cons, h]

theorem stripNl_append_nls (t u : Str) (hu : ∀ c ∈ u, c = '\n')
    (h : flatTok t = true) : stripNl (t ++ u) = t := by
  have hne := flatTok_ne_nil t h
  have hhd : ¬ (headCh t = '\n') := by
    intro hh
    have := flatTok_head t h
    rw [hh] at this
    exact absurd this (by decide)
  have hlast : ¬ (lastCh t = '\n') := by
    intro hh
    have := flatTok_last t h
    rw [hh] at this
    exact absurd this (by decide)
  have h1 : List.dropWhile (fun c => decide (c = '\n')) (t ++ u) = t ++ u := by
    cases t with
    | nil => exact absurd rfl hne
    | cons c cs =>
      rw [List.cons_append]
      exact dropWhile_cons_neg _ c _ (by simpa [headCh] using hhd)
  rw [stripNl, h1, List.reverse_append,
    dropWhile_append_all _ u.reverse t.reverse
      (fun c hc => by simpa using hu c (List.mem_reverse.mp hc))]
  have hd : t.dropLast ++ [t.getLast hne] = t := List.dropLast_append_getLast hne
  have hgl : ¬ (t.getLast hne = '\n') := by
    rwa [lastCh_eq_getLast t hne] at hlast
  have h2 : List.dropWhile (fun c => decide (c = '\n')) t.reverse = t.reverse := by
    conv_lhs => rw [← hd]
    conv_rhs => rw [← hd]
    rw [List.reverse_append, List.reverse_singleton, List.singleton_append,
      dropWhile_cons_neg _ _ _ (by simpa using hgl)]
  rw [h2, List.reverse_reverse]

theorem stripNl_all_nls (u : Str) (hu : ∀ c ∈ u, c = '\n') : stripNl u = [] := by
  have h1 : List.dropWhile (fun c => decide (c = '\n')) u = [] :=
    List.dropWhile_eq_nil_iff.mpr (fun c hc => by simpa using hu c hc)
  rw [stripNl, h1]
  rfl

theorem takeWhileCrash_append (p : Str → Bool) (pre : List Str) (y : Str)
    (rest : List Str) (h1 : ∀ x ∈ pre, p x = true) (h2 : p y = false) :
    takeWhileCrash p (pre ++ y :: rest) = .ok (pre, y :: rest) := by
  induction pre with
  | nil => simp [takeWhileCrash, h2]
  | cons x xs ih =>
    rw [List.cons_append, takeWhileCrash]
    simp only [h1 x (by simp), if_pos]
    rw [ih (fun z hz => h1 z (by simp [hz]))]

theorem takeWhileSafe_all (p : Str → Bool) (l : List Str)
    (h : ∀ x ∈ l, p x = true) : takeWhileSafe p l = (l, []) := by
  induction l with
  | nil => rfl
  | cons x xs ih =>
    rw [takeWhileSafe]
    simp only [h x (by simp), if_pos]
    rw [ih (fun z hz => h z (by simp [hz]))]

theorem takeEmpty_cons_blank (x : Str) (xs : List Str) (h : (stripWs x).isEmpty = true) :
    takeEmpty (x :: xs) = takeEmpty xs := by
  simp [takeEmpty, h]

theorem takeEmpty_cons_nonblank (x : Str) (xs : List Str)
    (h : (stripWs x).isEmpty = false) : takeEmpty (x :: xs) = .ok (x :: xs) := by
  simp [takeEmpty, h]

theorem insortMeta_sorted_eq (m : List (Str × Str)) (h : keysSortedB m = true) :
    insortMeta m = m := by
  induction m with
  | nil => rfl
  | cons p rest ih =>
    cases rest with
    | nil => rfl
    | cons q rest2 =>
      simp only [keysSortedB, Bool.and_eq_true] at h
      rw [insortMeta, ih h.2, insortPair]
      simp [h.1]

theorem parseKV_fmt (k v : Str) (hk : hasChar ':' k = false) :
    parseKV (k ++ strL ": " ++ v) = some (k, v) := by
  have he : k ++ strL ": " ++ v = k ++ ':' :: (' ' :: v) := by
    simp [strL]
  simp [parseKV, he, splitFirst_first ':' k (' ' :: v) hk]

theorem metaPairOk_core_flat (p : Str × Str) (h : metaPairOk p = true) :
    flatTok (p.1 ++ strL ": " ++ p.2) = true := by
  simp only [metaPairOk, metaKeyOk, metaValOk, Bool.and_eq_true] at h
  have hk := h.1.1.1.1
  have hv := h.2.1
  have hkn := flatTok_ne_nil _ hk
  have hvn := flatTok_ne_nil _ hv
  simp only [flatTok, Bool.and_eq_true, Bool.not_eq_true']
  refine ⟨⟨⟨?_, ?_⟩, ?_⟩, ?_⟩
  · simp [hkn]
  · rw [hasChar_append, hasChar_append, flatTok_no_nl _ hk, flatTok_no_nl _ hv]
    decide
  · rw [headCh_append _ p.2 (by simp [hkn]), headCh_append _ _ hkn]
    exact flatTok_head _ hk
  · rw [lastCh_append _ p.2 hvn]
    exact flatTok_last _ hv

theorem metaPairOk_key_nocolon (p : Str × Str) (h : metaPairOk p = true) :
    hasChar ':' p.1 = false := by
  simp only [metaPairOk, metaKeyOk, Bool.and_eq_true, Bool.not_eq_true'] at h
  exact h.1.1.1.2

theorem metaPairOk_key_nodash (p : Str × Str) (h : metaPairOk p = true) :
    ¬ (headCh p.1 = '-') := by
  simp only [metaPairOk, metaKeyOk, Bool.and_eq_true, Bool.not_eq_true',
    decide_eq_false_iff_not] at h
  exact h.1.1.2

theorem metaPairOk_key_ne_nil (p : Str × Str) (h : metaPairOk p = true) :
    p.1 ≠ [] := by
  simp only [metaPairOk, metaKeyOk, Bool.and_eq_true] at h
  exact flatTok_ne_nil _ h.1.1.1.1

theorem splitFilter_meta (m : List (Str × Str)) (hm : m.all metaPairOk = true) :
    (splitOnNl (joinNl
      (m.map (fun p => p.1 ++ strL ": " ++ p.2 ++ strL "\n")))).filter
      (fun l => !(stripWs l).isEmpty) =
      m.map (fun p => p.1 ++ strL ": " ++ p.2) := by
  induction m with
  | nil => decide
  | cons p rest ih =>
    simp only [List.all_cons, Bool.and_eq_true] at hm
    have hcore := metaPairOk_core_flat p hm.1
    have hnl := flatTok_no_nl _ hcore
    have hsc : stripWs (p.1 ++ strL ": " ++ p.2) = p.1 ++ strL ": " ++ p.2 :=
      stripWs_flat _ hcore
    have hnonempty : (p.1 ++ strL ": " ++ p.2).isEmpty = false := by
      simpa using flatTok_ne_nil _ hcore
    have hblank : stripWs ([] : Str) = [] := rfl
    have hline : p.1 ++ strL ": " ++ p.2 ++ strL "\n" =
        (p.1 ++ strL ": " ++ p.2) ++ '\n' :: [] := by
      simp [strL]
    have hsc2 : stripWs (p.1 ++ (strL ": " ++ p.2)) = p.1 ++ (strL ": " ++ p.2) := by
      rw [← List.append_assoc]
      exact hsc
    have hnonempty2 : (p.1 ++ (strL ": " ++ p.2)).isEmpty = false := by
      rw [← List.append_assoc]
      exact hnonempty
    cases rest with
    | nil =>
      rw [List.map_cons, List.map_nil, joinNl_single, hline,
        splitOnNl_append _ _ hnl]
      simp [List.filter_cons, hsc, hnonempty, hsc2, hnonempty2, hblank, splitOnNl]
    | cons q rest2 =>
      have ih2 := ih hm.2
      rw [List.map_cons] at ih2
      rw [List.map_cons, List.map_cons, joinNl_cons, hline]
      rw [show ((p.1 ++ strL ": " ++ p.2) ++ '\n' :: []) ++
          '\n' :: joinNl ((q.1 ++ strL ": " ++ q.2 ++ strL "\n") ::
            rest2.map (fun p => p.1 ++ strL ": " ++ p.2 ++ strL "\n")) =
          (p.1 ++ strL ": " ++ p.2) ++
          '\n' :: ('\n' :: joinNl ((q.1 ++ strL ": " ++ q.2 ++ strL "\n") ::
            rest2.map (fun p => p.1 ++ strL ": " ++ p.2 ++ strL "\n"))) from by simp]
      rw [splitOnNl_append _ _ hnl,
        show ∀ X : Str, splitOnNl ('\n' :: X) = [] :: splitOnNl X from
          fun X => by simp [splitOnNl]]
      rw [List.filter_cons, List.filter_cons]
      simp only [hsc, hnonempty, hsc2, hnonempty2, hblank, Bool.not_false,
        List.isEmpty_nil, Bool.not_true, Bool.false_eq_true, if_false, if_true,
        eq_self_iff_true, List.map_cons]
      rw [ih2, List.map_cons]

theorem mapM_parseKV (m : List (Str × Str)) (hm : m.all metaPairOk = true) :
    (m.map (fun p => p.1 ++ strL ": " ++ p.2)).mapM parseKV = some m := by
  induction m with
  | nil => rfl
  | cons p rest ih =>
    simp only [List.all_cons, Bool.and_eq_true] at hm
    rw [List.map_cons, List.mapM_cons, parseKV_fmt p.1 p.2
      (metaPairOk_key_nocolon p hm.1), ih hm.2]
    rfl

theorem yamlLoad_meta (m : List (Str × Str)) (hm : m.all metaPairOk = true)
    (hne : m ≠ []) :
    yamlLoad (joinNl (m.map (fun p => p.1 ++ strL ": " ++ p.2 ++ strL "\n"))) =
      some m := by
  rw [yamlLoad]
  simp only [splitFilter_meta m hm]
  cases m with
  | nil => exact absurd rfl hne
  | cons p rest =>
    have hcol : hasChar ':' (p.1 ++ strL ": " ++ p.2) = true := by
      rw [hasChar_append, hasChar_append,
        show hasChar ':' (strL ": ") = true from rfl]
      simp
    have hcond : ¬ ((p :: rest).map (fun p => p.1 ++ strL ": " ++ p.2) =
        [strL "\x7b\x7d"]) := by
      intro hEq
      rw [List.map_cons] at hEq
      have h1 := (List.cons_eq_cons.mp hEq).1
      rw [h1] at hcol
      exact absurd hcol (by decide)
    rw [if_neg hcond]
    exact mapM_parseKV _ (by exact hm)

theorem stripWs_pre_line (pre t : Str) (hpre : pre ≠ [])
    (hh : isWs (headCh pre) = false) (ht : flatTok t = true) :
    stripWs (pre ++ t ++ strL "\n") = pre ++ t := by
  have h1 : stripLeft (pre ++ t ++ strL "\n") = pre ++ t ++ strL "\n" := by
    cases pre with
    | nil => exact absurd rfl hpre
    | cons c cs =>
      rw [List.cons_append, List.cons_append]
      exact stripLeft_cons_nonws c _ hh
  rw [stripWs, h1, show pre ++ t ++ strL "\n" = (pre ++ t) ++ ['\n'] from rfl,
    stripRight_append_ws _ _ (by decide),
    stripRight_last_nonws (pre ++ t) (by simp [flatTok_ne_nil t ht])
      (by rw [lastCh_append _ _ (flatTok_ne_nil t ht)]; exact flatTok_last t ht)]

theorem pyLines_meta_flatten (m : List (Str × Str)) (b : Str)
    (hm : m.all metaPairOk = true) :
    pyLines ((m.map (fun p => p.1 ++ strL ": " ++ p.2 ++ strL "\n")).flatten ++
      strL "---" ++ '\n' :: b) =
    (m.map (fun p => p.1 ++ strL ": " ++ p.2 ++ strL "\n")) ++
      strL "---\n" :: pyLines b := by
  induction m with
  | nil =>
    simp only [List.map_nil, List.flatten_nil, List.nil_append]
    rw [pyLines_append _ _ (by decide)]
    rfl
  | cons p rest ih =>
    simp only [List.all_cons, Bool.and_eq_true] at hm
    have hnl := flatTok_no_nl _ (metaPairOk_core_flat p hm.1)
    rw [List.map_cons, List.flatten_cons]
    rw [show ((p.1 ++ strL ": " ++ p.2 ++ strL "\n") ++
        (rest.map (fun p => p.1 ++ strL ": " ++ p.2 ++ strL "\n")).flatten ++
        strL "---" ++ '\n' :: b) =
        ((p.1 ++ strL ": " ++ p.2) ++
        '\n' :: ((rest.map (fun p => p.1 ++ strL ": " ++ p.2 ++ strL "\n")).flatten ++
          strL "---" ++ '\n' :: b)) from by simp [strL]]
    rw [pyLines_append _ _ hnl, ih hm.2]
    simp [strL]

theorem pyLines_front (m : List (Str × Str)) (b : Str)
    (hm : m.all metaPairOk = true) (hs : keysSortedB m = true) :
    pyLines (strL "---\n" ++ yamlDump m ++ strL "---" ++ '\n' :: b) =
      strL "---\n" ::
      ((if m.isEmpty then [strL "\x7b\x7d\n"]
        else m.map (fun p => p.1 ++ strL ": " ++ p.2 ++ strL "\n")) ++
        strL "---\n" :: pyLines b) := by
  rw [show strL "---\n" ++ yamlDump m ++ strL "---" ++ '\n' :: b =
      strL "---" ++ '\n' :: (yamlDump m ++ strL "---" ++ '\n' :: b) from by
    simp [strL]]
  rw [pyLines_append _ _ (by decide)]
  cases m with
  | nil =>
    rw [show yamlDump [] = strL "\x7b\x7d\n" from rfl]
    rw [show strL "\x7b\x7d\n" ++ strL "---" ++ '\n' :: b =
        strL "\x7b\x7d" ++ '\n' :: (strL "---" ++ '\n' :: b) from by simp [strL]]
    rw [pyLines_append _ _ (by decide), pyLines_append _ _ (by decide)]
    rfl
  | cons p rest =>
    have hdump : yamlDump (p :: rest) =
        ((p :: rest).map (fun p => p.1 ++ strL ": " ++ p.2 ++ strL "\n")).flatten := by
      rw [yamlDump, insortMeta_sorted_eq _ hs]
      rfl
    rw [hdump, pyLines_meta_flatten _ _ hm]
    rfl

theorem refTok_flat (r : Str) (h : refTok r = true) : flatTok r = true := by
  simp only [refTok, Bool.and_eq_true] at h
  exact h.1

theorem refTok_bullet (r : Str) (h : refTok r = true) :
    startsWith (strL "- ") r = true := by
  simp only [refTok, Bool.and_eq_true] at h
  exact h.2

theorem pyLines_refs (refs : List Str) (h : refs.all refTok = true) :
    pyLines (joinNl refs) = attachNewlines refs := by
  induction refs with
  | nil => rfl
  | cons r rest ih =>
    simp only [List.all_cons, Bool.and_eq_true] at h
    cases rest with
    | nil =>
      rw [joinNl_single]
      rw [pyLines_flat r (flatTok_ne_nil r (refTok_flat r h.1))
        (flatTok_no_nl r (refTok_flat r h.1))]
      rfl
    | cons r2 rest2 =>
      rw [joinNl_cons, pyLines_append _ _ (flatTok_no_nl r (refTok_flat r h.1)),
        ih h.2]
      rfl

theorem attachNewlines_pred (refs : List Str) (h : refs.all refTok = true) :
    ∀ x ∈ attachNewlines refs, startsWith (strL "- ") (stripWs x) = true := by
  induction refs with
  | nil => intro x hx; simp [attachNewlines] at hx
  | cons r rest ih =>
    simp only [List.all_cons, Bool.and_eq_true] at h
    cases rest with
    | nil =>
      intro x hx
      simp only [attachNewlines, List.mem_singleton] at hx
      subst hx
      rw [stripWs_flat _ (refTok_flat _ h.1)]
      exact refTok_bullet _ h.1
    | cons r2 rest2 =>
      intro x hx
      rw [show attachNewlines (r :: r2 :: rest2) =
        (r ++ strL "\n") :: attachNewlines (r2 :: rest2) from rfl] at hx
      rcases List.mem_cons.mp hx with hx1 | hx2
      · subst hx1
        rw [stripWs_flat_nl _ (refTok_flat r h.1)]
        exact refTok_bullet r h.1
      · exact ih h.2 x hx2

theorem parse_meta_lines (m : List (Str × Str)) (rest : List Str)
    (hm : m.all metaPairOk = true) :
    parse_meta (strL "---\n" ::
      ((if m.isEmpty then [strL "\x7b\x7d\n"]
        else m.map (fun p => p.1 ++ strL ": " ++ p.2 ++ strL "\n")) ++
        strL "---\n" :: rest)) = .ok (m, rest) := by
  have hpre : ∀ line ∈ (if m.isEmpty then [strL "\x7b\x7d\n"]
      else m.map (fun p => p.1 ++ strL ": " ++ p.2 ++ strL "\n")),
      (!startsWith (strL "---") line) = true := by
    cases m with
    | nil =>
      intro line hl
      simp only [List.isEmpty_nil, if_true, List.mem_singleton] at hl
      subst hl
      decide
    | cons p prest =>
      intro line hl
      simp only [List.isEmpty_cons, if_false, Bool.false_eq_true] at hl
      obtain ⟨q, hq, hline⟩ := List.mem_map.mp hl
      have hqok : metaPairOk q = true := by
        have := List.all_eq_true.mp hm q hq
        simpa using this
      subst hline
      have hkn := metaPairOk_key_ne_nil q hqok
      have hhd : headCh (q.1 ++ strL ": " ++ q.2 ++ strL "\n") = headCh q.1 := by
        rw [headCh_append _ _ (by simp [hkn]), headCh_append _ _ (by simp [hkn]),
          headCh_append _ _ hkn]
      rw [show strL "---" = '-' :: strL "--" from rfl,
        startsWith_head_ne '-' _ _ (by simp [hkn])
          (by rw [hhd]; exact metaPairOk_key_nodash q hqok)]
      rfl
  have htw := takeWhileCrash_append (fun x => !startsWith (strL "---") x)
    _ (strL "---\n") rest hpre (by decide)
  rw [parse_meta]
  simp only [show startsWith (strL "---") (strL "---\n") = true from by decide,
    if_pos, htw]
  cases m with
  | nil =>
    simp only [List.isEmpty_nil, if_true]
    rw [show yamlLoad (joinNl [strL "\x7b\x7d\n"]) = some [] from by decide]
  | cons p prest =>
    simp only [List.isEmpty_cons, Bool.false_eq_true, if_false]
    rw [yamlLoad_meta _ hm (by simp)]

theorem parse_title_lines (t : Str) (rest : List Str) (ht : flatTok t = true) :
    parse_title ((strL "# " ++ t ++ strL "\n") :: rest) = .ok (t, rest) := by
  have hstrip := stripWs_pre_line (strL "# ") t (by decide) (by decide) ht
  have hne : (stripWs (strL "# " ++ t ++ strL "\n")).isEmpty = false := by
    rw [hstrip]
    rfl
  rw [parse_title, takeEmpty_cons_nonblank _ _ hne]
  have hsw : startsWith (strL "# ") (stripWs (strL "# " ++ t ++ strL "\n")) = true := by
    rw [hstrip]
    exact startsWith_pre (strL "# ") t
  have hswraw : startsWith (strL "# ") (strL "# " ++ t ++ strL "\n") = true := by
    rw [show strL "# " ++ t ++ strL "\n" = strL "# " ++ (t ++ strL "\n") from by simp]
    exact startsWith_pre _ _
  simp only [hsw, if_pos, hswraw, if_true]
  rw [show (strL "# " ++ t ++ strL "\n").drop 2 = t ++ strL "\n" from rfl]
  rw [stripNl_append_nls t (strL "\n") (by decide) ht]

theorem parse_abstract_absent (l : Str) (rest : List Str)
    (hne : (stripWs l).isEmpty = false)
    (h : startsWith (strL "## Abstract") (stripWs l) = false) :
    parse_abstract (l :: rest) = .ok (none, l :: rest) := by
  rw [parse_abstract, takeEmpty_cons_nonblank _ _ hne]
  simp [h]

theorem parse_abstract_present (a : Str) (l2 : Str) (rest : List Str)
    (hA : flatTok a = true) (hA2 : startsWith (strL "## ") a = false)
    (hstop : startsWith (strL "## ") (stripWs l2) = true) :
    parse_abstract (strL "\n" :: strL "## Abstract:\n" :: (a ++ strL "\n") ::
      strL "\n" :: l2 :: rest) = .ok (some a, l2 :: rest) := by
  rw [parse_abstract, takeEmpty_cons_blank _ _ (by decide),
    takeEmpty_cons_nonblank _ _ (by decide)]
  have hpre : ∀ x ∈ [a ++ strL "\n", strL "\n"],
      (!startsWith (strL "## ") (stripWs x)) = true := by
    intro x hx
    rcases List.mem_cons.mp hx with hx1 | hx2
    · subst hx1
      rw [stripWs_flat_nl _ hA, hA2]
      rfl
    · simp only [List.mem_singleton] at hx2
      subst hx2
      decide
  have htw := takeWhileCrash_append
    (fun x => !startsWith (strL "## ") (stripWs x))
    [a ++ strL "\n", strL "\n"] l2 rest hpre (by simp [hstop])
  have htw2 : takeWhileCrash (fun x => !startsWith (strL "## ") (stripWs x))
      ((a ++ strL "\n") :: strL "\n" :: l2 :: rest) =
      .ok ([a ++ strL "\n", strL "\n"], l2 :: rest) := htw
  simp only [show startsWith (strL "## Abstract")
      (stripWs (strL "## Abstract:\n")) = true from by decide, if_pos, if_true]
  simp only [htw2]
  rw [joinNl_cons, joinNl_single]
  rw [show (a ++ strL "\n") ++ '\n' :: strL "\n" = a ++ ['\n', '\n', '\n'] from by
    simp [strL]]
  rw [stripNl_append_nls a ['\n', '\n', '\n'] (by decide) hA]

theorem parse_notes_lines (nb : Str) (l2 : Str) (rest : List Str)
    (hnb : nb.isEmpty = true ∨
      (flatTok nb = true ∧ startsWith (strL "## ") nb = false))
    (hstop : startsWith (strL "## ") (stripWs l2) = true) :
    parse_notes (strL "## Notes:\n" ::
      ((if nb.isEmpty then [strL "\n", strL "\n"]
        else [nb ++ strL "\n", strL "\n"]) ++ l2 :: rest)) =
      .ok (nb, l2 :: rest) := by
  rw [parse_notes, takeEmpty_cons_nonblank _ _ (by decide)]
  simp only [show startsWith (strL "## Notes")
      (stripWs (strL "## Notes:\n")) = true from by decide, if_pos, if_true]
  rcases hnb with hempty | ⟨hflat, hns⟩
  · have hnbnil : nb = [] := List.isEmpty_iff.mp hempty
    subst hnbnil
    simp only [List.isEmpty_nil, if_true]
    have htw := takeWhileCrash_append
      (fun x => !startsWith (strL "## ") (stripWs x))
      [strL "\n", strL "\n"] l2 rest (by intro x hx; fin_cases hx <;> decide)
      (by simp [hstop])
    simp only [htw]
    rw [joinNl_cons, joinNl_single]
    rw [show strL "\n" ++ '\n' :: strL "\n" = ['\n', '\n', '\n'] from by simp [strL]]
    rw [stripNl_all_nls ['\n', '\n', '\n'] (by decide)]
  · have hne : nb.isEmpty = false := by
      cases hh : nb.isEmpty
      · rfl
      · exact absurd (List.isEmpty_iff.mp hh) (flatTok_ne_nil nb hflat)
    simp only [hne, Bool.false_eq_true, if_false]
    have hpre : ∀ x ∈ [nb ++ strL "\n", strL "\n"],
        (!startsWith (strL "## ") (stripWs x)) = true := by
      intro x hx
      rcases List.mem_cons.mp hx with hx1 | hx2
      · subst hx1
        rw [stripWs_flat_nl _ hflat, hns]
        rfl
      · simp only [List.mem_singleton] at hx2
        subst hx2
        decide
    have htw := takeWhileCrash_append
      (fun x => !startsWith (strL "## ") (stripWs x))
      [nb ++ strL "\n", strL "\n"] l2 rest hpre (by simp [hstop])
    simp only [htw]
    rw [joinNl_cons, joinNl_single]
    rw [show (nb ++ strL "\n") ++ '\n' :: strL "\n" = nb ++ ['\n', '\n', '\n'] from by
      simp [strL]]
    rw [stripNl_append_nls nb ['\n', '\n', '\n'] (by decide) hflat]

theorem parse_references_lines (refs : List Str) (h : refs.all refTok = true) :
    parse_references (strL "## References:\n" :: attachNewlines refs) =
      .ok (attachNewlines refs, []) := by
  rw [parse_references, takeEmpty_cons_nonblank _ _ (by decide)]
  simp only [show startsWith (strL "## References")
      (stripWs (strL "## References:\n")) = true from by decide, if_pos, if_true]
  rw [takeWhileSafe_all _ _ (attachNewlines_pred refs h)]

theorem parse_abstract_skip_blank (x : Str) (xs : List Str)
    (h : (stripWs x).isEmpty = true) :
    parse_abstract (x :: xs) = parse_abstract xs := by
  rw [parse_abstract, parse_abstract, takeEmpty_cons_blank _ _ h]

theorem bodyTok_cases (s : Str) (h : bodyTok s = true) :
    s.isEmpty = true ∨
      (flatTok s = true ∧ startsWith (strL "## ") s = false) := by
  simp only [bodyTok, Bool.or_eq_true, Bool.and_eq_true, Bool.not_eq_true'] at h
  exact h

theorem pyLines_notes_refs (nb : Str) (refs : List Str)
    (hnb : bodyTok nb = true) (hrefs : refs.all refTok = true) :
    pyLines (strL "## Notes:" ++ '\n' ::
      (nb ++ '\n' :: ('\n' :: (strL "## References:" ++ '\n' :: joinNl refs)))) =
    strL "## Notes:\n" ::
      ((if nb.isEmpty then [strL "\n", strL "\n"]
        else [nb ++ strL "\n", strL "\n"]) ++
        strL "## References:\n" :: attachNewlines refs) := by
  have e1 : strL "## Notes:" ++ strL "\n" = strL "## Notes:\n" := by decide
  have e2 : strL "## References:" ++ strL "\n" = strL "## References:\n" := by decide
  rw [pyLines_append _ _ (by decide)]
  rcases bodyTok_cases nb hnb with hEmp | ⟨hflat, hrest⟩
  · have hnil : nb = [] := List.isEmpty_iff.mp hEmp
    subst hnil
    rw [List.nil_append, pyLines_nl_cons, pyLines_nl_cons,
      pyLines_append _ _ (by decide), pyLines_refs refs hrefs]
    simp [e1, e2]
  · have hne : nb.isEmpty = false := by
      cases hh : nb.isEmpty
      · rfl
      · exact absurd (List.isEmpty_iff.mp hh) (flatTok_ne_nil nb hflat)
    rw [pyLines_append _ _ (flatTok_no_nl _ hflat), pyLines_nl_cons,
      pyLines_append _ _ (by decide), pyLines_refs refs hrefs]
    simp [hne, e1, e2]

theorem pyLines_title_only (t : Str) (tail2 : Str) (ln : List Str)
    (ht : flatTok t = true) (htail : pyLines tail2 = ln) :
    pyLines ((strL "# " ++ t) ++ '\n' :: ('\n' :: tail2)) =
      (strL "# " ++ t ++ strL "\n") :: strL "\n" :: ln := by
  have hnlt : hasChar '\n' (strL "# " ++ t) = false := by
    rw [hasChar_append, flatTok_no_nl _ ht]
    decide
  rw [pyLines_append _ _ hnlt, pyLines_nl_cons, htail]

theorem pyLines_abs_seg (a : Str) (tail2 : Str) (ln : List Str)
    (haf : flatTok a = true) (htail : pyLines tail2 = ln) :
    pyLines (strL "## Abstract:" ++ '\n' :: (a ++ '\n' :: ('\n' :: tail2))) =
      strL "## Abstract:\n" :: (a ++ strL "\n") :: strL "\n" :: ln := by
  rw [pyLines_append _ _ (by decide), pyLines_append _ _ (flatTok_no_nl _ haf),
    pyLines_nl_cons, htail,
    show strL "## Abstract:" ++ strL "\n" = strL "## Abstract:\n" from by decide]

theorem parseMarkdown_stages (fname text : Str)
    (m : List (Str × Str)) (r1 : List Str) (t : Str) (r2 : List Str)
    (ab : Option Str) (r3 : List Str) (nb2 : Str) (r4 : List Str)
    (refs r5 : List Str)
    (h1 : parse_meta (pyLines text) = .ok (m, r1))
    (h2 : parse_title r1 = .ok (t, r2))
    (h3 : parse_abstract r2 = .ok (ab, r3))
    (h4 : parse_notes r3 = .ok (nb2, r4))
    (h5 : parse_references r4 = .ok (refs, r5)) :
    parseMarkdown fname text = .ok ⟨fname, m, t, ab, some nb2, refs⟩ := by
  simp only [parseMarkdown, h1, h2, h3, h4, h5]

/-- Every well-formed document parses back after writing: metadata and title
come back verbatim, a truthy abstract comes back verbatim (an absent or empty
abstract parses as `none`), the notes body comes back as the f-string
rendering of the notes field, and each reference line comes back verbatim
except that every reference line but the last keeps the trailing newline of
file-line iteration. -/
theorem parse_write (doc : MarkdownFile) (h : wfDoc doc = true) :
    parseMarkdown doc.path (write_markdown doc) = .ok
      { doc with
        abstract := if optTruthy doc.abstract then doc.abstract else none
        notes := some (pyShow doc.notes)
        references := attachNewlines doc.references } := by
  have h2 := h
  simp only [wfDoc, Bool.and_eq_true] at h2
  obtain ⟨⟨⟨⟨⟨hm, hs⟩, ht⟩, hab⟩, hnb⟩, hrefs⟩ := h2
  have hsegN := pyLines_notes_refs (pyShow doc.notes) doc.references hnb hrefs
  by_cases habs : optTruthy doc.abstract = true
  · have habseq : doc.abstract = some (pyShow doc.abstract) := by
      cases hA0 : doc.abstract with
      | none =>
        rw [hA0] at habs
        exact absurd habs (by decide)
      | some a0 => rfl
    have habody : bodyTok (pyShow doc.abstract) = true := by
      cases hA0 : doc.abstract with
      | none => decide
      | some a0 =>
        rw [hA0] at hab
        exact hab
    have hant : (pyShow doc.abstract).isEmpty = false := by
      cases hA0 : doc.abstract with
      | none => decide
      | some a0 =>
        rw [hA0] at habs
        simp only [optTruthy, Bool.not_eq_true'] at habs
        exact habs
    have haflat : flatTok (pyShow doc.abstract) = true ∧
        startsWith (strL "## ") (pyShow doc.abstract) = false := by
      rcases bodyTok_cases _ habody with hEmp | hOk
      · rw [hEmp] at hant
        exact absurd hant (by decide)
      · exact hOk
    have htext : write_markdown doc =
        strL "---\n" ++ yamlDump doc.meta ++ strL "---" ++ '\n' ::
        ((strL "# " ++ doc.title) ++ '\n' :: ('\n' ::
          (strL "## Abstract:" ++ '\n' :: (pyShow doc.abstract ++ '\n' :: ('\n' ::
            (strL "## Notes:" ++ '\n' :: (pyShow doc.notes ++ '\n' :: ('\n' ::
              (strL "## References:" ++ '\n' ::
                joinNl doc.references))))))))) := by
      rw [write_markdown, if_pos habs]
      simp [strL]
    have hT := pyLines_title_only doc.title _ _ ht
      (pyLines_abs_seg (pyShow doc.abstract) _ _ haflat.1 hsegN)
    rw [show ({ doc with
        abstract := if optTruthy doc.abstract then doc.abstract else none
        notes := some (pyShow doc.notes)
        references := attachNewlines doc.references } : MarkdownFile) =
      ⟨doc.path, doc.meta, doc.title, some (pyShow doc.abstract),
        some (pyShow doc.notes), attachNewlines doc.references⟩ from by
      rw [if_pos habs, ← habseq]]
    apply parseMarkdown_stages
    · rw [htext, pyLines_front _ _ hm hs, hT]
      exact parse_meta_lines doc.meta _ hm
    · exact parse_title_lines doc.title _ ht
    · exact parse_abstract_present (pyShow doc.abstract) _ _ haflat.1 haflat.2
        (by decide)
    · exact parse_notes_lines (pyShow doc.notes) _ _ (bodyTok_cases _ hnb)
        (by decide)
    · exact parse_references_lines doc.references hrefs
  · have htext : write_markdown doc =
        strL "---\n" ++ yamlDump doc.meta ++ strL "---" ++ '\n' ::
        ((strL "# " ++ doc.title) ++ '\n' :: ('\n' ::
          (strL "## Notes:" ++ '\n' :: (pyShow doc.notes ++ '\n' :: ('\n' ::
            (strL "## References:" ++ '\n' :: joinNl doc.references)))))) := by
      rw [write_markdown, if_neg habs]
      simp [strL]
    have hT := pyLines_title_only doc.title _ _ ht hsegN
    rw [show ({ doc with
        abstract := if optTruthy doc.abstract then doc.abstract else none
        notes := some (pyShow doc.notes)
        references := attachNewlines doc.references } : MarkdownFile) =
      ⟨doc.path, doc.meta, doc.title, none,
        some (pyShow doc.notes), attachNewlines doc.references⟩ from by
      rw [if_neg habs]]
    apply parseMarkdown_stages
    · rw [htext, pyLines_front _ _ hm hs, hT]
      exact parse_meta_lines doc.meta _ hm
    · exact parse_title_lines doc.title _ ht
    · rw [parse_abstract_skip_blank _ _ (by decide)]
      exact parse_abstract_absent _ _ (by decide) (by decide)
    · exact parse_notes_lines (pyShow doc.notes) _ _ (bodyTok_cases _ hnb)
        (by decide)
    · exact parse_references_lines doc.references hrefs

theorem parse_meta_absent (l : Str) (ls : List Str)
    (h : startsWith (strL "---") l = false) :
    parse_meta (l :: ls) = .ok ([], l :: ls) := by
  rw [parse_meta]
  simp [h]

theorem takeWhileCrash_stop (p : Str → Bool) (x : Str) (xs : List Str)
    (h : p x = false) :
    takeWhileCrash p (x :: xs) = .ok ([], x :: xs) := by
  simp [takeWhileCrash, h]

theorem parseMarkdown_err5 (fname text : Str)
    (m : List (Str × Str)) (r1 : List Str) (t : Str) (r2 : List Str)
    (ab : Option Str) (r3 : List Str) (nb2 : Str) (r4 : List Str) (e : PErr)
    (h1 : parse_meta (pyLines text) = .ok (m, r1))
    (h2 : parse_title r1 = .ok (t, r2))
    (h3 : parse_abstract r2 = .ok (ab, r3))
    (h4 : parse_notes r3 = .ok (nb2, r4))
    (h5 : parse_references r4 = .error e) :
    parseMarkdown fname text = .error e := by
  simp only [parseMarkdown, h1, h2, h3, h4, h5]

/-- Claim C2 (amended): the write/parse/write round trip is byte-for-byte
idempotent for every well-formed document with at most one reference line (the
general claim fails: a second reference line comes back from the parse with a
trailing newline, so rewriting inserts a blank line between bullets). -/
theorem write_parse_write_eq (doc : MarkdownFile) (h : wfDoc doc = true)
    (hlen : doc.references.length ≤ 1) :
    (parseMarkdown doc.path (write_markdown doc)).map write_markdown =
      .ok (write_markdown doc) := by
  rw [parse_write doc h]
  have hatt : attachNewlines doc.references = doc.references := by
    cases href2 : doc.references with
    | nil => rfl
    | cons r rest =>
      cases rest with
      | nil => rfl
      | cons r2 rest2 =>
        exfalso
        rw [href2, List.length_cons, List.length_cons] at hlen
        omega
  show Except.ok (write_markdown _) = _
  congr 1
  rw [write_markdown, write_markdown, hatt]
  by_cases habs : optTruthy doc.abstract = true
  · rw [if_pos habs]
    rfl
  · rw [if_neg habs, if_neg (show ¬ (optTruthy none = true) from by decide),
      if_neg habs]
    rfl

/-- Witness for the amended C2 at a concrete well-formed document with one
reference. -/
theorem write_parse_write_eq_witness :
    wfDoc ⟨strL "q", [(strL "year", strL "2020")], strL "My Title",
      some (strL "An abstract."), none, [strL "- ref one"]⟩ = true ∧
    (parseMarkdown (strL "q") (write_markdown
      ⟨strL "q", [(strL "year", strL "2020")], strL "My Title",
        some (strL "An abstract."), none, [strL "- ref one"]⟩)).map write_markdown =
      .ok (write_markdown
        ⟨strL "q", [(strL "year", strL "2020")], strL "My Title",
          some (strL "An abstract."), none, [strL "- ref one"]⟩) :=
  ⟨by decide,
    write_parse_write_eq
      ⟨strL "q", [(strL "year", strL "2020")], strL "My Title",
        some (strL "An abstract."), none, [strL "- ref one"]⟩
      (by decide) (by decide)⟩

/-- Claim C2 is false as stated: for the concrete well-formed two-reference
document `cexDoc`, write/parse/write is not byte-identical to write, the
difference consists of whitespace only, and that whitespace is significant --
parsing the rewritten text yields a different document (the second reference
is lost), so the outputs are not even equal up to insignificant whitespace. -/
theorem round_trip_cex :
    (parseMarkdown cexDoc.path (write_markdown cexDoc)).map write_markdown ≠
      .ok (write_markdown cexDoc) ∧
    (parseMarkdown cexDoc.path (write_markdown cexDoc)).map
      (fun d => noWs (write_markdown d)) = .ok (noWs (write_markdown cexDoc)) ∧
    (match parseMarkdown cexDoc.path (write_markdown cexDoc) with
     | .ok d => parseMarkdown cexDoc.path (write_markdown d)
     | .error e => .error e) ≠
      parseMarkdown cexDoc.path (write_markdown cexDoc) := by
  exact ⟨by decide, by decide, by decide⟩

/-- Claim C9: when the notes field is `None`, `write_markdown` renders the
Notes section body as the literal four characters `None`, and parsing the
written file back yields notes equal to the string `None` rather than an empty
or absent value. -/
theorem notes_none_literal (doc : MarkdownFile) (h : wfDoc doc = true)
    (hn : doc.notes = none) :
    write_markdown doc =
      strL "---\n" ++ yamlDump doc.meta ++ strL "---" ++ strL "\n# " ++
      doc.title ++
      (if optTruthy doc.abstract then strL "\n\n## Abstract:\n" ++
        pyShow doc.abstract else []) ++
      strL "\n\n## Notes:\nNone\n\n## References:\n" ++ joinNl doc.references ∧
    (parseMarkdown doc.path (write_markdown doc)).map (fun d => d.notes) =
      .ok (some (strL "None")) := by
  constructor
  · rw [write_markdown, hn]
    simp [strL, pyShow]
  · rw [parse_write doc h, hn]
    rfl

/-- Witness for C9 at a concrete document with `None` notes. -/
theorem notes_none_literal_witness :
    write_markdown ⟨strL "p", [], strL "T", none, none, []⟩ =
      strL "---\n\x7b\x7d\n---\n# T\n\n## Notes:\nNone\n\n## References:\n" ∧
    (parseMarkdown (strL "p") (write_markdown
      ⟨strL "p", [], strL "T", none, none, []⟩)).map (fun d => d.notes) =
      .ok (some (strL "None")) := by
  have h := notes_none_literal ⟨strL "p", [], strL "T", none, none, []⟩
    (by decide) rfl
  exact ⟨h.1.trans (by decide), h.2⟩

/-- Claim C3 is false as stated: the concrete file `cexNoRefsEof`, from which
the required References heading is absent because the file simply ends after
the Notes body, makes the parser crash with an unstructured error (the
`None`-unsafe take-while predicate, an `AttributeError` in the source) instead
of raising a `ParseError` naming the expected section. -/
theorem missing_references_eof_crash :
    parseMarkdown (strL "p") cexNoRefsEof = .error .pyCrash := by decide

theorem startsWith_hh_ne_nil (s : Str)
    (h : startsWith (strL "## ") s = true) : s.isEmpty = false := by
  cases hs : s with
  | nil =>
    rw [hs] at h
    exact absurd h (by decide)
  | cons c cs => rfl

/-- Claim C3 (amended): when the line at the position where the References
heading is required is present but is some other level-2 heading, the parser
raises the structured `ParseError` naming References and quoting the found
line; and the optional sections are truly optional: a file with no metadata
block and no Abstract parses with an empty mapping and `abstract = none`
without error.  (As stated the claim fails: input that ends before the
References heading crashes unstructured, see the counterexample.) -/
theorem parse_error_precision (t bad nb : Str)
    (ht : flatTok t = true)
    (hb1 : startsWith (strL "## ") (stripWs bad) = true)
    (hb2 : startsWith (strL "## References") (stripWs bad) = false)
    (hb3 : hasChar '\n' bad = false)
    (hnb : nb.isEmpty = true ∨
      (flatTok nb = true ∧ startsWith (strL "## ") nb = false)) :
    parseMarkdown (strL "p") (strL "# " ++ t ++ strL "\n## Notes:\n" ++ bad) =
      .error (.parseError (strL "Expected References, got " ++ bad)) ∧
    parseMarkdown (strL "p")
      (strL "# " ++ t ++ strL "\n## Notes:\n" ++ nb ++ strL "\n## References:\n") =
      .ok ⟨strL "p", [], t, none, some nb, []⟩ := by
  have hhd : ¬ headCh (strL "# " ++ t ++ strL "\n") = '-' := by
    rw [show strL "# " ++ t ++ strL "\n" = '#' :: (' ' :: (t ++ strL "\n")) from by
      simp [strL]]
    show ¬ ('#' = '-')
    decide
  have hmeta : ∀ ls : List Str,
      parse_meta ((strL "# " ++ t ++ strL "\n") :: ls) =
        .ok ([], (strL "# " ++ t ++ strL "\n") :: ls) := by
    intro ls
    refine parse_meta_absent _ _ ?_
    rw [show strL "---" = '-' :: strL "--" from rfl]
    exact startsWith_head_ne '-' (strL "--") _ (by simp [strL]) hhd
  have htnl : hasChar '\n' (strL "# " ++ t) = false := by
    rw [hasChar_append, flatTok_no_nl _ ht]
    decide
  constructor
  · have hbadne : bad ≠ [] := by
      intro hnil
      rw [hnil] at hb1
      exact absurd hb1 (by decide)
    have htl : pyLines (strL "# " ++ t ++ strL "\n## Notes:\n" ++ bad) =
        (strL "# " ++ t ++ strL "\n") :: strL "## Notes:\n" :: [bad] := by
      rw [show strL "# " ++ t ++ strL "\n## Notes:\n" ++ bad =
        (strL "# " ++ t) ++ '\n' :: (strL "## Notes:" ++ '\n' :: bad) from by
        simp [strL]]
      rw [pyLines_append _ _ htnl, pyLines_append _ _ (by decide),
        pyLines_flat bad hbadne hb3]
      simp [strL]
    have hnbk : (stripWs bad).isEmpty = false := startsWith_hh_ne_nil _ hb1
    have s4 : parse_notes (strL "## Notes:\n" :: [bad]) = .ok ([], [bad]) := by
      rw [parse_notes, takeEmpty_cons_nonblank _ _ (by decide)]
      simp only [show startsWith (strL "## Notes")
        (stripWs (strL "## Notes:\n")) = true from by decide, if_pos, if_true]
      rw [takeWhileCrash_stop _ _ _ (by simp [hb1])]
      rfl
    have s5 : parse_references [bad] =
        .error (.parseError (strL "Expected References, got " ++ bad)) := by
      rw [parse_references, takeEmpty_cons_nonblank _ _ hnbk]
      simp [hb2]
    apply parseMarkdown_err5
    · rw [htl]
      exact hmeta _
    · exact parse_title_lines t _ ht
    · exact parse_abstract_absent _ _ (by decide) (by decide)
    · exact s4
    · exact s5
  · have s5 : parse_references [strL "## References:\n"] = .ok ([], []) := by
      decide
    rcases hnb with hE | ⟨hf, hsn⟩
    · have hnil : nb = [] := List.isEmpty_iff.mp hE
      subst hnil
      have htl : pyLines (strL "# " ++ t ++ strL "\n## Notes:\n" ++ [] ++
          strL "\n## References:\n") =
          (strL "# " ++ t ++ strL "\n") :: strL "## Notes:\n" :: strL "\n" ::
          [strL "## References:\n"] := by
        rw [show strL "# " ++ t ++ strL "\n## Notes:\n" ++ [] ++
          strL "\n## References:\n" =
          (strL "# " ++ t) ++ '\n' :: (strL "## Notes:" ++ '\n' ::
            ('\n' :: (strL "## References:" ++ '\n' :: []))) from by simp [strL]]
        rw [pyLines_append _ _ htnl, pyLines_append _ _ (by decide),
          pyLines_nl_cons, pyLines_append _ _ (by decide)]
        simp [strL, pyLines]
      have s4 : parse_notes (strL "## Notes:\n" :: strL "\n" ::
          [strL "## References:\n"]) = .ok ([], [strL "## References:\n"]) := by
        decide
      apply parseMarkdown_stages
      · rw [htl]
        exact hmeta _
      · exact parse_title_lines t _ ht
      · exact parse_abstract_absent _ _ (by decide) (by decide)
      · exact s4
      · exact s5
    · have hnbne := flatTok_ne_nil _ hf
      have htl : pyLines (strL "# " ++ t ++ strL "\n## Notes:\n" ++ nb ++
          strL "\n## References:\n") =
          (strL "# " ++ t ++ strL "\n") :: strL "## Notes:\n" ::
          (nb ++ strL "\n") :: [strL "## References:\n"] := by
        rw [show strL "# " ++ t ++ strL "\n## Notes:\n" ++ nb ++
          strL "\n## References:\n" =
          (strL "# " ++ t) ++ '\n' :: (strL "## Notes:" ++ '\n' ::
            (nb ++ '\n' :: (strL "## References:" ++ '\n' :: []))) from by
          simp [strL]]
        rw [pyLines_append _ _ htnl, pyLines_append _ _ (by decide),
          pyLines_append _ _ (flatTok_no_nl _ hf), pyLines_append _ _ (by decide)]
        simp [strL, pyLines]
      have s4 : parse_notes (strL "## Notes:\n" :: (nb ++ strL "\n") ::
          [strL "## References:\n"]) = .ok (nb, [strL "## References:\n"]) := by
        rw [parse_notes, takeEmpty_cons_nonblank _ _ (by decide)]
        simp only [show startsWith (strL "## Notes")
          (stripWs (strL "## Notes:\n")) = true from by decide, if_pos, if_true]
        have hpred : (fun x => !startsWith (strL "## ") (stripWs x))
            (nb ++ strL "\n") = true := by
          simp [stripWs_flat_nl _ hf, hsn]
        have htw := takeWhileCrash_append
          (fun x => !startsWith (strL "## ") (stripWs x))
          [nb ++ strL "\n"] (strL "## References:\n") [] 
          (by
            intro x hx
            simp only [List.mem_singleton] at hx
            subst hx
            exact hpred)
          (by decide)
        have htw2 : takeWhileCrash (fun x => !startsWith (strL "## ") (stripWs x))
            ((nb ++ strL "\n") :: [strL "## References:\n"]) =
            .ok ([nb ++ strL "\n"], [strL "## References:\n"]) := htw
        simp only [htw2]
        rw [joinNl_single, stripNl_append_nls nb (strL "\n") (by decide) hf]
      apply parseMarkdown_stages
      · rw [htl]
        exact hmeta _
      · exact parse_title_lines t _ ht
      · exact parse_abstract_absent _ _ (by decide) (by decide)
      · exact s4
      · exact s5

/-- Witness for the amended C3: a concrete file whose References slot holds a
different level-2 heading yields the precise ParseError, and a concrete file
without front matter and Abstract parses cleanly. -/
theorem parse_error_precision_witness :
    parseMarkdown (strL "p") (strL "# T\n## Notes:\n## Refs:") =
      .error (.parseError (strL "Expected References, got ## Refs:")) ∧
    parseMarkdown (strL "p") (strL "# T\n## Notes:\nhello\n## References:\n") =
      .ok ⟨strL "p", [], strL "T", none, some (strL "hello"), []⟩ := by
  have h := parse_error_precision (strL "T") (strL "## Refs:") (strL "hello")
    (by decide) (by decide) (by decide) (by decide) (by decide)
  constructor
  · have h1 := h.1
    rw [show strL "# " ++ strL "T" ++ strL "\n## Notes:\n" ++ strL "## Refs:" =
      strL "# T\n## Notes:\n## Refs:" from by decide] at h1
    rw [h1]
    decide
  · have h2 := h.2
    rw [show strL "# " ++ strL "T" ++ strL "\n## Notes:\n" ++ strL "hello" ++
      strL "\n## References:\n" = strL "# T\n## Notes:\nhello\n## References:\n"
      from by decide] at h2
    exact h2
